import Mathlib

/-!
Verification of the Avito-Parser fetch/extract/reconcile core.

This file gives a shallow embedding, in Lean 4, of the behaviourally relevant
parts of the repository:

* `core/clients.py`   — `CookieStore.load`, `CurlClient.get` (retry loop with
  backoff, identity rotation and Playwright fallback), `PlaywrightClient.get`
  (page-load waits).
* `core/parser.py`    — `ListingListProcessor.extract_all` (tier-1 structural
  card extraction and page-link fallback), `_extract_from_scripts` (tier-2
  ld+json and inline-state extraction), `_fallback_regex_sweep` (tier 3),
  and the small text normalisation helpers.
* `src/main.py`       — the `run-once` and `parse-file` pipelines: batch
  reconciliation by url and the upsert step over `database/models.py` ’s
  `ParsedListing` shape.

External libraries (curl_cffi, BeautifulSoup, json, SQLAlchemy, Playwright)
are treated as parse/transport boundaries: their *outputs* (an HTTP response,
a parsed DOM view, a parsed JSON value, selector-match results) are the inputs
of the embedded functions, and the repository's own logic over those values is
transcribed faithfully.
-/

namespace AvitoParser

/-! ## JSON values

`json.load` / `json.loads` results are modelled as a tagged union, one
constructor per Python JSON shape.  Numbers are modelled as integers (the
repository only ever formats them back with `str(...)` or compares truthiness;
no fractional arithmetic occurs).  Objects are association lists with the keys
unique, as produced by Python's JSON parser. -/

inductive JValue where
  | null
  | bool (b : Bool)
  | num (n : Int)
  | str (s : String)
  | arr (items : List JValue)
  | obj (fields : List (String × JValue))

/-- Python truthiness of a JSON value (`if x:`): `None`, `False`, `0`, `""`,
`[]` and `{}` are falsy, everything else truthy. -/
def JValue.pyTruthy : JValue → Bool
  | JValue.null => false
  | JValue.bool b => b
  | JValue.num n => n != 0
  | JValue.str s => s != ""
  | JValue.arr l => !l.isEmpty
  | JValue.obj l => !l.isEmpty

/-- `d.get(k)` on a dict, `None`-returning on non-dicts (the repository always
guards with `isinstance(..., dict)` first; keys are unique after parsing). -/
def JValue.getKey : JValue → String → Option JValue
  | JValue.obj fields, k => (fields.find? (fun p => p.1 = k)).map (·.2)
  | _, _ => none

/-- `str(x)` as the repository's f-strings use it — only string and numeric
values ever reach those f-strings in the modelled paths. -/
def JValue.pyStr : JValue → String
  | JValue.str s => s
  | JValue.num n => toString n
  | JValue.bool true => "True"
  | JValue.bool false => "False"
  | JValue.null => "None"
  | JValue.arr _ => "[]"
  | JValue.obj _ => "\x7b\x7d"

/-! ## HTTP response model and `CurlClient.get` (core/clients.py, lines 72-133) -/

/-- An HTTP response as observed by `CurlClient.get`: the status code and the
response body (`resp.status_code`, `resp.text`). -/
structure Response where
  status : Nat
  body : String
deriving Repr, DecidableEq

/-- The ways a `CurlClient.get` call can raise.
`httpStatus s` models `resp.raise_for_status()` raising on a 4xx/5xx status;
`browserFailed` models the Playwright fallback itself raising. -/
inductive FetchError where
  | httpStatus (status : Nat)
  | browserFailed (msg : String)
deriving Repr, DecidableEq

/-- Observable side effects of one `CurlClient.get` call: how many primary
request attempts were issued (the cookie store is saved once per attempt),
the sleep durations in order, and how many times the Playwright fallback
client was invoked. -/
structure FetchTrace where
  attempts : Nat
  sleeps : List ℚ
  browserCalls : Nat
deriving Repr, DecidableEq

/-- `min(10, 2 ** attempt)` from `core/clients.py` line 121; the jittered sleep
is `backoffBound attempt + random.uniform(0, 0.5)`. -/
def backoffBound (attempt : Nat) : ℚ := min 10 (2 ^ attempt)

/-- The retry loop body of `CurlClient.get` (`for attempt in range(1, max_attempts + 1)`).
`responses a` is the response the network returns to the `a`-th attempt and
`jitter a` the value drawn by `random.uniform(0, 0.5)` on that attempt;
`browser` is the outcome of `PlaywrightClient.get` should the fallback run.
The second argument of the pair is the remaining loop fuel
(`max_attempts - attempt + 1`); at fuel 0 the `for` loop has exhausted all
attempts and the function falls back to Playwright. -/
def curlGetLoop (responses : Nat → Response) (jitter : Nat → ℚ)
    (browser : Except String String) :
    Nat → Nat → Except FetchError String × FetchTrace
  | _attempt, 0 => (browser.mapError FetchError.browserFailed, ⟨0, [], 1⟩)
  | attempt, rem + 1 =>
    let resp := responses attempt
    if resp.status = 200 ∨ resp.status = 201 then
      (Except.ok resp.body, ⟨1, [], 0⟩)
    else if resp.status = 403 ∨ resp.status = 429 ∨ resp.status = 503 then
      let rest := curlGetLoop responses jitter browser (attempt + 1) rem
      (rest.1, ⟨rest.2.attempts + 1,
                (backoffBound attempt + jitter attempt) :: rest.2.sleeps,
                rest.2.browserCalls⟩)
    else if 400 ≤ resp.status ∧ resp.status < 600 then
      (Except.error (FetchError.httpStatus resp.status), ⟨1, [], 0⟩)
    else
      (Except.ok resp.body, ⟨1, [], 0⟩)

/-- `CurlClient.get`: up to `max_attempts = 5` attempts starting at attempt 1. -/
def curlGet (responses : Nat → Response) (jitter : Nat → ℚ)
    (browser : Except String String) : Except FetchError String × FetchTrace :=
  curlGetLoop responses jitter browser 1 5

/-! ## `CookieStore.load` (core/clients.py, lines 24-31) -/

/-- The states the cookie file can be in when `CookieStore.load` runs:
missing on disk, present but unreadable (`open`/read raises), present but not
valid JSON (`json.load` raises), or present with well-formed JSON content
whose parse is `data`. -/
inductive CookieFileState where
  | absent
  | unreadable
  | invalidJson
  | wellFormed (data : JValue)

/-- The default returned when the file is missing or broken:
`{"cookies": [], "cookie_dict": {}}`. -/
def defaultCookies : JValue :=
  JValue.obj [("cookies", JValue.arr []), ("cookie_dict", JValue.obj [])]

/-- `CookieStore.load`: `if self.path.exists(): try: return json.load(f)
except Exception: log` then fall through to the default.  The function is
total — every file state yields a value, never an exception. -/
def cookieLoad : CookieFileState → JValue
  | CookieFileState.absent => defaultCookies
  | CookieFileState.unreadable => defaultCookies
  | CookieFileState.invalidJson => defaultCookies
  | CookieFileState.wellFormed data => data

/-! ## `PlaywrightClient.get` page-load waits (core/clients.py, lines 179-186) -/

/-- One rendered browser page as `PlaywrightClient.get` observes it:
whether `a[data-marker="item-title"]` appears before the configured timeout,
whether the broader catalog-container selector appears before the timeout,
and the final rendered markup `page.content()` (after scrolling and the
optional challenge-solving block, both of which swallow their own errors). -/
structure BrowserPage where
  titleMarkerAppears : Bool
  catalogMarkerAppears : Bool
  content : String
deriving Repr, DecidableEq

/-- `PlaywrightClient.get` from the navigation waits onward: the wait for the
title marker is wrapped in `try/except`, the softer wait for the catalog
container is **not** — if it times out too, the `TimeoutError` propagates out
of `get`.  Otherwise the rendered markup is returned (every later block —
scrolling, challenge solving, cookie saving, debug dumps — catches its own
exceptions). -/
def playwrightGet (page : BrowserPage) : Except String String :=
  if page.titleMarkerAppears then Except.ok page.content
  else if page.catalogMarkerAppears then Except.ok page.content
  else Except.error "TimeoutError: waiting for catalog container selector"

/-! ## Text helpers of `ListingListProcessor` (core/parser.py, lines 99-130)

Strings are processed as `List Char`.  The whitespace class models the
characters matched by the `[\s ]+` pattern (and stripped by `str.strip`)
that occur in practice: the ASCII whitespace set plus the no-break space. -/

/-- Whitespace for `_normalize` / `str.strip`. -/
def isSpaceChar (c : Char) : Bool :=
  c = ' ' || c = '\t' || c = '\n' || c = '\r' || c = '\x0b' || c = '\x0c' || c = '\u00A0'

/-- Collapse every run of whitespace to a single `' '`
(`re.sub(r"[\s ]+", " ", text)`).  The boolean tracks whether the
previous character was part of a whitespace run. -/
def collapseSpacesAux : List Char → Bool → List Char
  | [], _ => []
  | c :: rest, prevSpace =>
    if isSpaceChar c then
      if prevSpace then collapseSpacesAux rest true
      else ' ' :: collapseSpacesAux rest true
    else c :: collapseSpacesAux rest false

/-- Python `str.strip()` over the modelled whitespace class. -/
def pyStrip (l : List Char) : List Char :=
  ((l.dropWhile isSpaceChar).reverse.dropWhile isSpaceChar).reverse

/-- `_normalize`: `if not text: return ""` then collapse-and-strip. -/
def normalize (text : Option String) : String :=
  match text with
  | none => ""
  | some s =>
    if s = "" then ""
    else String.mk (pyStrip (collapseSpacesAux s.data false))

/-- Numeric value of a (non-empty) digit list. -/
def digitsToNat (ds : List Char) : Nat :=
  ds.foldl (fun acc c => acc * 10 + (c.toNat - '0'.toNat)) 0

/-- `_extract_digits`: keep only digits (`re.sub(r"[^\d]", "", text)`) and
parse them, `None` when no digit remains or the input is falsy. -/
def extract_digits (text : Option String) : Option Nat :=
  match text with
  | none => none
  | some s =>
    if s = "" then none
    else
      let ds := s.data.filter (·.isDigit)
      if ds.isEmpty then none else some (digitsToNat ds)

/-- Python `str.lower()` restricted to the alphabets in play: ASCII letters
and the Russian Cyrillic block (`А-Я` and `Ё`). -/
def pyLowerChar (c : Char) : Char :=
  if 'A' ≤ c ∧ c ≤ 'Z' then Char.ofNat (c.toNat + 32)
  else if 'А' ≤ c ∧ c ≤ 'Я' then Char.ofNat (c.toNat + 32)
  else if c = 'Ё' then 'ё'
  else c

/-- Lowercase a whole string. -/
def pyLower (s : String) : String := String.mk (s.data.map pyLowerChar)

/-- Head-anchored match of `(\d+)%`: a maximal digit run immediately followed
by `'%'`. -/
def matchDigitsPercent (l : List Char) : Option Nat :=
  let run := l.takeWhile (·.isDigit)
  if run.isEmpty then none
  else
    match l.drop run.length with
    | '%' :: _ => some (digitsToNat run)
    | _ => none

/-- `re.search(r"(\d+)%", text)`: earliest match anywhere in the text.
Skipping the whole failed digit run is sound because a match starting inside
a digit run ends at the same place the full run does. -/
def searchDigitsPercent : List Char → Option Nat
  | [] => none
  | c :: rest =>
    match matchDigitsPercent (c :: rest) with
    | some n => some n
    | none => searchDigitsPercent rest

/-- Head-anchored match of `комиссия\s*(\d+)` over lowercased text. -/
def matchCommissionKw (l : List Char) : Option Nat :=
  let kw := "комиссия".data
  if l.take kw.length = kw then
    let afterKw := (l.drop kw.length).dropWhile isSpaceChar
    let run := afterKw.takeWhile (·.isDigit)
    if run.isEmpty then none else some (digitsToNat run)
  else none

/-- `re.search(r"комиссия\s*(\d+)", text.lower())`. -/
def searchCommissionKw : List Char → Option Nat
  | [] => none
  | c :: rest =>
    match matchCommissionKw (c :: rest) with
    | some n => some n
    | none => searchCommissionKw rest

/-- `_extract_percentage`: first try `(\d+)%` on the text, then
`комиссия\s*(\d+)` on its lowercased form; falsy input gives `None`. -/
def extract_percentage (text : Option String) : Option Nat :=
  match text with
  | none => none
  | some s =>
    if s = "" then none
    else
      match searchDigitsPercent s.data with
      | some n => some n
      | none => searchCommissionKw (pyLower s).data

/-- State machine for `re.sub(r'<[^>]+>', ' ', inner)`.  The second argument
is `none` outside a candidate tag and `some buf` after an unmatched `'<'`,
with `buf` holding (reversed) the characters read since.  A maximal
`<`…`>` span with at least one character between the brackets becomes one
space; an empty `<>` or an unclosed `'<'` stays literal, as under the regex. -/
def stripTagsAux : List Char → Option (List Char) → List Char
  | [], none => []
  | [], some buf => '<' :: buf.reverse
  | c :: rest, none =>
    if c = '<' then stripTagsAux rest (some [])
    else c :: stripTagsAux rest none
  | c :: rest, some buf =>
    if c = '>' then
      if buf.isEmpty then '<' :: '>' :: stripTagsAux rest none
      else ' ' :: stripTagsAux rest none
    else stripTagsAux rest (some (c :: buf))

/-- `re.sub(r'<[^>]+>', ' ', inner)`. -/
def stripTags (l : List Char) : List Char := stripTagsAux l none

/-- The character class `[\d\s\u00A0]` of the price pattern. -/
def isPriceClass (c : Char) : Bool := c.isDigit || isSpaceChar c

/-- Head-anchored match of `([\d\s\u00A0]+)\s*₽`: a maximal run of
price-class characters immediately followed by `'₽'` (the `\s*` can only
match empty, since the class subsumes it); returns the whole `group(0)`. -/
def matchPriceHead (l : List Char) : Option (List Char) :=
  let run := l.takeWhile isPriceClass
  if run.isEmpty then none
  else
    match l.drop run.length with
    | '₽' :: _ => some (run ++ ['₽'])
    | _ => none

/-- `re.search(r'([\d\s\u00A0]+)\s*₽', tail)`: the match at the earliest
start position, scanning left to right. -/
def searchPriceTail : List Char → Option (List Char)
  | [] => none
  | c :: rest =>
    match matchPriceHead (c :: rest) with
    | some m => some m
    | none => searchPriceTail rest

/-- Python's `in` on strings, over char lists (`"счетчики" in part`). -/
def containsSub (needle : List Char) : List Char → Bool
  | [] => needle.isEmpty
  | c :: rest => needle.isPrefixOf (c :: rest) || containsSub needle rest

/-- Python `s.startswith(pre)` (kernel-computable, list-based). -/
def pyStartsWith (s pre : String) : Bool := pre.data.isPrefixOf s.data

/-- `text.split(sep)` for a one-character separator: like Python's
`str.split`, empty pieces are kept. -/
def splitOnChar (sep : Char) : List Char → List (List Char)
  | [] => [[]]
  | c :: rest =>
    let pieces := splitOnChar sep rest
    if c = sep then [] :: pieces
    else
      match pieces with
      | piece :: more => (c :: piece) :: more
      | [] => [[c]]

/-! ## DOM-side data model

A BeautifulSoup parse cannot be embedded; what can is the *view* the
repository's selectors take of it.  Each field below is the result of one of
the `select`/`select_one`/`find_next` expressions in
`ListingListProcessor.extract_all` (core/parser.py, lines 132-339), carried
as data.  `None` means the selector chain matched nothing. -/

/-- Python truthiness of an optional string (`None` and `""` are falsy). -/
def optTruthy : Option String → Bool
  | none => false
  | some s => s != ""

/-- Python `x or y` on a possibly-missing string `x` with string fallback `y`
(`a.get("title") or a.get_text(" ")`). -/
def pyOrStr (x : Option String) (y : String) : String :=
  match x with
  | some s => if s = "" then y else s
  | none => y

/-- Python `x or y` on JSON values (`it.get("title") or it.get("name")`). -/
def pyOrJ (x y : Option JValue) : Option JValue :=
  match x with
  | some j => if j.pyTruthy then some j else y
  | none => y

/-- A JSON field read as a string; the repository's candidate fields are
string-valued in every modelled path (a non-string value here would be
carried through untyped by Python, or raise on `.startswith`). -/
def jStrField (v : Option JValue) : Option String :=
  match v with
  | some (JValue.str s) => some s
  | _ => none

/-- Python `base_url.rstrip("/")`. -/
def rstripSlash (s : String) : String :=
  String.mk ((s.data.reverse.dropWhile (· = '/')).reverse)

/-- `if href and href.startswith("/") and base_url: url = base_url.rstrip("/") + href`
else keep `href` as is. -/
def resolveRootRel (base : Option String) (href : Option String) : Option String :=
  match href with
  | some h =>
    if h != "" && pyStartsWith h "/" && optTruthy base then
      some (rstripSlash (base.getD "") ++ h)
    else some h
  | none => none

/-- Image `src` normalisation inside the tier-1 card loop:
protocol-relative `//…` becomes `https://…`; root-relative `/…` is prefixed
with the stripped base url; anything else is untouched. -/
def resolveImgSrc (base : Option String) (src : String) : String :=
  if pyStartsWith src "//" then "https:" ++ src
  else if pyStartsWith src "/" && optTruthy base then rstripSlash (base.getD "") ++ src
  else src

/-- An anchor element as the card extractor reads it: the `title` attribute,
`get_text(" ")`, and the `href` attribute. -/
structure ATag where
  titleAttr : Option String
  textContent : String
  href : Option String
deriving Repr, DecidableEq

/-- One listing card node and the results of the per-field selector chains
run against it.  `imgSrcs` lists the `src` attribute of every image-selector
match inside the card, in document order.  `addressNextP` is the text of
`addr_blk.find_next('p')` when that node exists and differs from the address
block itself. -/
structure CardNode where
  titleAnchor : Option ATag
  priceText : Option String
  paramsText : Option String
  addressText : Option String
  addressNextP : Option String
  descText : Option String
  imgSrcs : List (Option String)
deriving Repr, DecidableEq

/-- A page-level title link with the price/address elements found near it by
the container/`find_next` proximity search of the tier-1 last resort. -/
structure TitleLink where
  a : ATag
  nearPriceText : Option String
  nearAddressText : Option String
deriving Repr, DecidableEq

/-- One `script[type="application/ld+json"]` tag:
`parsed` is `json.loads(tag.string or "{}")`, `none` when that raised. -/
structure ScriptTag where
  parsed : Option JValue

/-- One plain `script` tag as the inline-state fallback reads it:
whether its text contains `"__INITIAL_STATE__"`, and the JSON parse of the
outermost brace-delimited region of the text (`none` when there is no such
region or `json.loads` raised on it). -/
structure InlineScript where
  hasInitialState : Bool
  bracesParsed : Option JValue

/-- The selector-level view of one BeautifulSoup parse of the markup:
primary card matches (`div.iva-item-content-fRmzq, div.iva-item-body-oMJBI`),
broader fallback card matches, page-level title links, ld+json script tags
and plain script tags. -/
structure DocView where
  primaryCards : List CardNode
  fallbackCards : List CardNode
  titleLinks : List TitleLink
  ldJsonScripts : List ScriptTag
  inlineScripts : List InlineScript

/-- One match of the tier-3 anchor regex
`<a[^>]+href="([^"]*?/item/[^"#\?]+)[^"]*"[^>]*>(.*?)</a>` over the raw
markup: the captured href, the raw inner HTML, and the text following the
match end (of which the sweep inspects the first 300 characters). -/
structure RegexAnchor where
  href : String
  inner : String
  tail : String
deriving Repr, DecidableEq

/-- A whole markup document: the strict (`lxml`) parse view, the lenient
(`html.parser`) second-pass view, and the raw-text regex anchor matches. -/
structure Markup where
  lxmlView : DocView
  htmlParserView : DocView
  itemAnchors : List RegexAnchor

/-! ## ExtractionCandidate (core/parser.py item dicts)

The candidate dict any tier produces.  An absent dict key is `none`
(`data.get(k)` then yields Python `None`); `images`, when set, is a list. -/

structure Candidate where
  title : Option String := none
  url : Option String := none
  price : Option String := none
  price_raw : Option String := none
  price_value : Option Nat := none
  bail : Option String := none
  tax : Option String := none
  services : Option String := none
  bail_raw : Option String := none
  bail_value : Option Nat := none
  commission_raw : Option String := none
  commission : Option Nat := none
  services_raw : Option String := none
  address : Option String := none
  description : Option String := none
  images : List String := []
deriving Repr, DecidableEq

/-- Accumulator of the params-line keyword loop. -/
structure ParamsAcc where
  bail : Option String := none
  tax : Option String := none
  services : Option String := none
  bail_raw : Option String := none
  commission_raw : Option String := none
  services_raw : Option String := none
  bail_value : Option Nat := none
  commission_value : Option Nat := none
deriving Repr, DecidableEq

/-- One pass of `for part in parts:` over the params line
(`Залог` / `Комиссия`-or-`Без комиссии` / `ЖКУ`-or-`счетчики` keywords;
a later matching part overwrites an earlier one). -/
def paramsStep (acc : ParamsAcc) (part : String) : ParamsAcc :=
  if pyStartsWith part "Залог" then
    { acc with bail := some part, bail_raw := some part,
               bail_value := extract_digits (some part) }
  else if pyStartsWith part "Комиссия" || pyStartsWith part "Без комиссии" then
    { acc with tax := some part, commission_raw := some part,
               commission_value := extract_percentage (some part) }
  else if pyStartsWith part "ЖКУ" || containsSub "счетчики".data part.data then
    { acc with services := some part, services_raw := some part }
  else acc

/-- The params line handling: normalise, split on `"·"`, strip each part,
then run the keyword loop. -/
def parseParams (paramsText : Option String) : ParamsAcc :=
  match paramsText with
  | none => {}
  | some t =>
    let parts := (splitOnChar '·' (normalize (some t)).data).map
      (fun p => String.mk (pyStrip p))
    parts.foldl paramsStep {}

/-- The image loop of the tier-1 card extractor.  Note the order of
operations in the source: the duplicate test compares the *raw* `src`
against the already-resolved entries of `imgs`, and only then resolves. -/
def collectImages (base : Option String) : List (Option String) → List String → List String
  | [], acc => acc
  | s :: rest, acc =>
    match s with
    | none => collectImages base rest acc
    | some src =>
      if src != "" && !(acc.contains src) then
        collectImages base rest (acc ++ [resolveImgSrc base src])
      else
        collectImages base rest acc

/-- Per-card extraction (core/parser.py, lines 170-276); returns `none` when
the card has neither a truthy title nor a truthy url and is dropped. -/
def extractCard (base : Option String) (card : CardNode) : Option Candidate :=
  let item0 : Candidate := {}
  let item1 :=
    match card.titleAnchor with
    | some a =>
      { item0 with
        title := some (normalize (some (pyOrStr a.titleAttr a.textContent))),
        url := resolveRootRel base a.href }
    | none => item0
  let item2 :=
    match card.priceText with
    | some t =>
      let priceRaw := normalize (some t)
      { item1 with price := some priceRaw, price_raw := some priceRaw,
                   price_value := extract_digits (some priceRaw) }
    | none => item1
  let acc := parseParams card.paramsText
  let item3 :=
    { item2 with
      bail := acc.bail, tax := acc.tax, services := acc.services,
      bail_raw := if optTruthy acc.bail_raw then acc.bail_raw else none,
      bail_value := acc.bail_value,
      commission_raw := if optTruthy acc.commission_raw then acc.commission_raw else none,
      commission := acc.commission_value,
      services_raw := if optTruthy acc.services_raw then acc.services_raw else none }
  let item4 :=
    match card.addressText with
    | some t =>
      let addrMain := normalize (some t)
      let extra := normalize card.addressNextP
      { item3 with address := some (addrMain ++ (if extra != "" then ", " ++ extra else "")) }
    | none => item3
  let item5 :=
    match card.descText with
    | some t => { item4 with description := some (normalize (some t)) }
    | none => item4
  let item6 := { item5 with images := collectImages base card.imgSrcs [] }
  if optTruthy item6.title || optTruthy item6.url then some item6 else none

/-- The tier-1 last resort (core/parser.py, lines 280-312): build an item
from a bare page-level title link, enriched by the nearby price/address
elements; appended unconditionally (the url is truthy by construction). -/
def extractTitleLink (base : Option String) (tl : TitleLink) : Option Candidate :=
  match tl.a.href with
  | none => none
  | some h =>
    if h = "" then none
    else
      let title := normalize (some (pyOrStr tl.a.titleAttr tl.a.textContent))
      let url := if pyStartsWith h "/" && optTruthy base then rstripSlash (base.getD "") ++ h else h
      let item0 : Candidate := { title := some title, url := some url }
      let item1 :=
        match tl.nearPriceText with
        | some t =>
          let priceRaw := normalize (some t)
          { item0 with price := some priceRaw, price_raw := some priceRaw,
                       price_value := extract_digits (some priceRaw) }
        | none => item0
      let item2 :=
        match tl.nearAddressText with
        | some t => { item1 with address := some (normalize (some t)) }
        | none => item1
      some item2

/-- `extract_from_soup` (core/parser.py, lines 158-314): primary card
selectors, else the broader fallback selectors; if no card assembled, the
page-level title-link path. -/
def extract_from_soup (base : Option String) (view : DocView) : List Candidate :=
  let cardNodes := if view.primaryCards.isEmpty then view.fallbackCards else view.primaryCards
  let cardsLocal := cardNodes.filterMap (extractCard base)
  if cardsLocal.isEmpty then view.titleLinks.filterMap (extractTitleLink base)
  else cardsLocal

/-! ## Tier 2: `_extract_from_scripts` (core/parser.py, lines 341-491) -/

/-- `price_str = f"{price} {currency}" if currency else str(price)` guarded
by `if price:`. -/
def priceString (price currency : Option JValue) : Option String :=
  match price with
  | some p =>
    if p.pyTruthy then
      match currency with
      | some c => if c.pyTruthy then some (p.pyStr ++ " " ++ c.pyStr) else some p.pyStr
      | none => some p.pyStr
    else none
  | none => none

/-- Image list of the `@graph → offers → offers[]` path: guarded by
`if image:`, a list keeps its string elements, a bare string becomes a
singleton. -/
def ldImagesGraph (image : Option JValue) : List String :=
  match image with
  | some img =>
    if img.pyTruthy then
      match img with
      | JValue.arr l =>
        l.filterMap (fun x => match x with | JValue.str s => some s | _ => none)
      | JValue.str s => [s]
      | _ => []
    else []
  | none => []

/-- Image list of the flat listing/product path: same shape dispatch but with
no truthiness guard (`img = obj.get("image")` straight into `isinstance`). -/
def ldImagesFlat (image : Option JValue) : List String :=
  match image with
  | some (JValue.arr l) =>
    l.filterMap (fun x => match x with | JValue.str s => some s | _ => none)
  | some (JValue.str s) => [s]
  | _ => []

/-- One offer of the graph path (`for offer in offers_list`): skipped unless
a dict; kept only when title or url is truthy. -/
def offerCandidate (base : Option String) (offer : JValue) : Option Candidate :=
  match offer with
  | JValue.obj _ =>
    let name := jStrField (offer.getKey "name")
    let url := resolveRootRel base (jStrField (offer.getKey "url"))
    let candidate : Candidate :=
      { title := name,
        price := priceString (offer.getKey "price") (offer.getKey "priceCurrency"),
        url := url,
        images := ldImagesGraph (offer.getKey "image") }
    if optTruthy candidate.title || optTruthy candidate.url then some candidate else none
  | _ => none

/-- The `@graph → offers → offers[]` walk of one parsed ld+json document. -/
def graphItems (base : Option String) (data : JValue) : List Candidate :=
  match data.getKey "@graph" with
  | some (JValue.arr graph) =>
    graph.foldl (fun acc gi =>
      match gi.getKey "offers" with
      | some offers =>
        match offers.getKey "offers" with
        | some (JValue.arr offersList) =>
          acc ++ offersList.filterMap (offerCandidate base)
        | _ => acc
      | none => acc) []
  | _ => []

/-- The flat listing/product mapping applied to one payload object. -/
def flatCandidate (base : Option String) (obj : JValue) : Option Candidate :=
  match obj with
  | JValue.obj _ =>
    let name := jStrField (pyOrJ (obj.getKey "name") (obj.getKey "headline"))
    let offers := obj.getKey "offers"
    let price :=
      match offers with
      | some o =>
        match o with
        | JValue.obj _ => priceString (o.getKey "price") (o.getKey "priceCurrency")
        | _ => none
      | none => none
    let url := resolveRootRel base (jStrField (obj.getKey "url"))
    let address :=
      match obj.getKey "address" with
      | some a =>
        match a with
        | JValue.obj _ =>
          let parts := ([jStrField (a.getKey "streetAddress"),
                         jStrField (a.getKey "addressLocality")].filterMap id).filter
                        (fun s => s != "")
          let joined := String.intercalate ", " parts
          if joined = "" then none else some joined
        | _ => none
      | none => none
    let candidate : Candidate :=
      { title := name, price := price, url := url, address := address,
        description := jStrField (obj.getKey "description"),
        images := ldImagesFlat (obj.getKey "image") }
    if optTruthy candidate.title || optTruthy candidate.url then some candidate else none
  | _ => none

/-- `payloads = data if isinstance(data, list) else [data]`, then the flat
mapping over each dict payload. -/
def flatItems (base : Option String) (data : JValue) : List Candidate :=
  let payloads := match data with | JValue.arr l => l | _ => [data]
  payloads.filterMap (flatCandidate base)

mutual

/-- The recursive `walk` generator of the inline-state fallback: yields every
element of any list stored under a key named `items`/`list`/`docs`
(case-insensitive), recursing elsewhere, in document order. -/
def walkItems : JValue → List JValue
  | JValue.obj fields => walkFields fields
  | JValue.arr xs => walkElems xs
  | _ => []

/-- `walk` over the fields of one object. -/
def walkFields : List (String × JValue) → List JValue
  | [] => []
  | (k, v) :: rest =>
    (if pyLower k = "items" ∨ pyLower k = "list" ∨ pyLower k = "docs" then
      match v with
      | JValue.arr xs => xs
      | _ => walkItems v
    else walkItems v) ++ walkFields rest

/-- `walk` over the elements of one list. -/
def walkElems : List JValue → List JValue
  | [] => []
  | x :: rest => walkItems x ++ walkElems rest

end

/-- `[p.get("url") if isinstance(p, dict) else p for p in pics if p]` followed
by the `isinstance(im, str)` filter. -/
def stateImages (pics : Option JValue) : List String :=
  match pics with
  | some (JValue.arr ps) =>
    ((ps.filter (·.pyTruthy)).map (fun p =>
        match p with
        | JValue.obj _ => (p.getKey "url").getD JValue.null
        | _ => p)).filterMap (fun im =>
        match im with | JValue.str s => some s | _ => none)
  | _ => []

/-- One recovered item of the inline-state walk (also the shape of the
`scripts.json` recovery in src/main.py, which is a line-for-line clone with
`base_url` fixed to `https://www.avito.ru`): title/name, url/uri with
root-relative resolution, `price.value`-or-`price.price` with currency,
images/thumbnails.  Kept only when title or url is truthy. -/
def stateCandidate (base : Option String) (it : JValue) : Option Candidate :=
  match it with
  | JValue.obj _ =>
    let title := jStrField (pyOrJ (it.getKey "title") (it.getKey "name"))
    let url :=
      match pyOrJ (it.getKey "url") (it.getKey "uri") with
      | some (JValue.str s) =>
        some (if pyStartsWith s "/" && optTruthy base then rstripSlash (base.getD "") ++ s else s)
      | _ => none
    let price :=
      match it.getKey "price" with
      | some p =>
        match p with
        | JValue.obj _ => priceString (pyOrJ (p.getKey "value") (p.getKey "price"))
                                      (p.getKey "currency")
        | _ => none
      | none => none
    let candidate : Candidate :=
      { title := title, url := url, price := price,
        images := stateImages (pyOrJ (it.getKey "images") (it.getKey "thumbnails")) }
    if optTruthy candidate.title || optTruthy candidate.url then some candidate else none
  | _ => none

/-- The inline initial-state fallback: scan plain script tags for the
`__INITIAL_STATE__` marker; a failed brace-extraction/parse continues to the
next script; the first script whose walk yields candidates wins. -/
def inlineStateItems (base : Option String) : List InlineScript → List Candidate
  | [] => []
  | s :: rest =>
    if s.hasInitialState then
      match s.bracesParsed with
      | none => inlineStateItems base rest
      | some st =>
        let its := (walkItems st).filterMap (stateCandidate base)
        if its.isEmpty then inlineStateItems base rest else its
    else inlineStateItems base rest

/-- `_extract_from_scripts`: every ld+json tag contributes its graph-path
items then its flat-path items; only when the whole ld+json scan yields
nothing does the inline-state fallback run. -/
def extract_from_scripts (base : Option String) (view : DocView) : List Candidate :=
  let items := view.ldJsonScripts.foldl (fun acc tag =>
    match tag.parsed with
    | none => acc
    | some data => acc ++ graphItems base data ++ flatItems base data) []
  if items.isEmpty then inlineStateItems base view.inlineScripts else items

/-- `extract_all` (core/parser.py, lines 132-339): strict-parse tier 1,
lenient-parse tier 1 only when the strict pass produced nothing, then the
script extraction of the strict parse appended unconditionally. -/
def extract_all (m : Markup) (base : Option String) : List Candidate :=
  let cards := extract_from_soup base m.lxmlView
  let cards2 := if cards.isEmpty then extract_from_soup base m.htmlParserView else cards
  let scripted := extract_from_scripts base m.lxmlView
  cards2 ++ scripted

/-! ## Tier 3: `_fallback_regex_sweep` (core/parser.py, lines 493-535) -/

/-- One anchor match of the sweep: strip inner tags, normalise the title,
drop short or generic titles, resolve the url, and look for a currency-marked
price in the first 300 trailing characters. -/
def sweepCandidate (base : Option String) (a : RegexAnchor) : Option Candidate :=
  let title := normalize (some (String.mk (stripTags a.inner.data)))
  if title = "" ∨ title.length < 3 ∨ pyLower title = "подробнее" then none
  else
    let url := if pyStartsWith a.href "/" && optTruthy base then
                 rstripSlash (base.getD "") ++ a.href
               else a.href
    let priceRaw := (searchPriceTail (a.tail.data.take 300)).map
      (fun cs => normalize (some (String.mk cs)))
    some { title := some title, url := some url,
           price := priceRaw, price_raw := priceRaw,
           price_value := priceRaw.bind (fun pr => extract_digits (some pr)) }

/-- The sweep's own de-duplication by url, first-seen order preserved;
an item whose url is not a string is dropped. -/
def dedupSweep : List Candidate → List String → List Candidate
  | [], _ => []
  | it :: rest, seen =>
    match it.url with
    | some u =>
      if seen.contains u then dedupSweep rest seen
      else it :: dedupSweep rest (u :: seen)
    | none => dedupSweep rest seen

/-- `_fallback_regex_sweep`. -/
def fallback_regex_sweep (base : Option String) (anchors : List RegexAnchor) : List Candidate :=
  dedupSweep (anchors.filterMap (sweepCandidate base)) []

/-! ## Reconciliation (src/main.py, lines 65-92 / 265-292)

`seen_urls` is a Python dict, i.e. an insertion-ordered association list with
unique keys; replacing a value keeps the key's position. -/

/-- Association-list lookup (`url in seen_urls` / `seen_urls[url]`). -/
def lookupSeen (u : String) : List (String × Candidate) → Option Candidate
  | [] => none
  | (k, v) :: rest => if k = u then some v else lookupSeen u rest

/-- One iteration of the reconciliation loop: drop a falsy url; for a fresh
url insert; for a seen url replace only when the incoming candidate has
images and the stored one has none. -/
def reconcileStep (seen : List (String × Candidate)) (data : Candidate) :
    List (String × Candidate) :=
  match data.url with
  | none => seen
  | some u =>
    if u = "" then seen
    else
      match lookupSeen u seen with
      | some existing =>
        if !existing.images.isEmpty then seen
        else if !data.images.isEmpty then
          seen.map (fun p => if p.1 = u then (u, data) else p)
        else seen
      | none => seen ++ [(u, data)]

/-- The whole reconciliation pass over a batch of candidates. -/
def reconcile (items : List Candidate) : List (String × Candidate) :=
  items.foldl reconcileStep []

/-! ## Persistence (src/main.py upsert loop; database/models.py `ParsedListing`) -/

/-- A stored `parsed_listings` row (the autoincrement id is not modelled;
`images_json` is kept as the list that `json.dumps` serialises).  Timestamps
are abstract instants (`datetime.utcnow` readings). -/
structure StoredListing where
  url : String
  title : Option String
  price : Option String
  price_raw : Option String
  price_value : Option Nat
  bail : Option String
  bail_raw : Option String
  bail_value : Option Nat
  tax : Option String
  commission_raw : Option String
  commission : Option Nat
  services : Option String
  services_raw : Option String
  address : Option String
  description : Option String
  images_json : List String
  created_at : Nat
  updated_at : Nat
deriving Repr, DecidableEq

/-- A fresh row: every field from the candidate, both timestamps set to the
insertion instant (`default=datetime.utcnow` on both columns). -/
def newListing (now : Nat) (u : String) (data : Candidate) : StoredListing :=
  { url := u, title := data.title, price := data.price, price_raw := data.price_raw,
    price_value := data.price_value, bail := data.bail, bail_raw := data.bail_raw,
    bail_value := data.bail_value, tax := data.tax,
    commission_raw := data.commission_raw, commission := data.commission,
    services := data.services, services_raw := data.services_raw,
    address := data.address, description := data.description,
    images_json := data.images, created_at := now, updated_at := now }

/-- SQLAlchemy's net-change detection over the fields the update branch
assigns: during flush the unit of work compares each assigned value with the
stored (committed) value and collects only the columns that actually differ;
this is true exactly when at least one differs. -/
def fieldsChanged (old : StoredListing) (data : Candidate) : Bool :=
  old.title != data.title || old.price != data.price || old.price_raw != data.price_raw
    || old.price_value != data.price_value || old.bail != data.bail
    || old.bail_raw != data.bail_raw || old.bail_value != data.bail_value
    || old.tax != data.tax || old.commission_raw != data.commission_raw
    || old.commission != data.commission || old.services != data.services
    || old.services_raw != data.services_raw || old.address != data.address
    || old.description != data.description || old.images_json != data.images

/-- The update branch: every mutable field is assigned from the candidate,
`url` and `created_at` untouched.  The `updated_at` column's
`onupdate=datetime.utcnow` fires only as part of an emitted UPDATE statement,
and SQLAlchemy emits no UPDATE when every assigned value equals the stored
one — so an update in which nothing differs leaves the row (including
`updated_at`) entirely unchanged. -/
def overwriteListing (now : Nat) (old : StoredListing) (data : Candidate) : StoredListing :=
  if fieldsChanged old data then
    { old with
      title := data.title, price := data.price, price_raw := data.price_raw,
      price_value := data.price_value, bail := data.bail, bail_raw := data.bail_raw,
      bail_value := data.bail_value, tax := data.tax,
      commission_raw := data.commission_raw, commission := data.commission,
      services := data.services, services_raw := data.services_raw,
      address := data.address, description := data.description,
      images_json := data.images, updated_at := now }
  else old

/-- A stored row carries exactly the candidate's values in every field the
upsert assigns (the shape both the insert and a net-change update produce). -/
def fieldsFromCandidate (r : StoredListing) (data : Candidate) : Prop :=
  r.title = data.title ∧ r.price = data.price ∧ r.price_raw = data.price_raw
    ∧ r.price_value = data.price_value ∧ r.bail = data.bail
    ∧ r.bail_raw = data.bail_raw ∧ r.bail_value = data.bail_value
    ∧ r.tax = data.tax ∧ r.commission_raw = data.commission_raw
    ∧ r.commission = data.commission ∧ r.services = data.services
    ∧ r.services_raw = data.services_raw ∧ r.address = data.address
    ∧ r.description = data.description ∧ r.images_json = data.images

/-- One upsert (`session.query(ParsedListing).filter_by(url=...).one_or_none()`
then insert-or-overwrite). -/
def upsertStep (now : Nat) (store : List StoredListing) (rec : String × Candidate) :
    List StoredListing :=
  match store.find? (fun o => o.url = rec.1) with
  | none => store ++ [newListing now rec.1 rec.2]
  | some _ => store.map (fun o => if o.url = rec.1 then overwriteListing now o rec.2 else o)

/-- The upsert loop over the reconciled batch (`for data in seen_urls.values()`);
every stored row carries `updated_at`/`created_at` per branch.  `saved`
increments on both branches, so the reported count is the batch length. -/
def upsertAll (now : Nat) (store : List StoredListing) (recs : List (String × Candidate)) :
    List StoredListing :=
  recs.foldl (upsertStep now) store

/-! ## Run entry points (src/main.py `main`) -/

/-- What a run reports: the `"Saved/updated N items"` success log, or the
`"Fetch failed: …"` / `"parse-file failed: …"` exception log from the
`except` block that wraps the whole command body. -/
inductive RunReport where
  | savedCount (n : Nat)
  | fetchFailure (msg : String)
deriving Repr, DecidableEq

/-- Rendering of the caught exception into the failure log line. -/
def describeFetchError : FetchError → String
  | FetchError.httpStatus s => "Fetch failed: HTTP Error " ++ toString s
  | FetchError.browserFailed m => "Fetch failed: " ++ m

/-- Result of one command invocation: the report, the resulting store, the
number of rows saved/updated, and whether the tier-3 regex sweep ran. -/
structure RunOutcome where
  report : RunReport
  finalStore : List StoredListing
  saved : Nat
  sweepInvoked : Bool

/-- The `base_url` every call site in src/main.py passes. -/
def avitoBase : Option String := some "https://www.avito.ru"

/-- The `run-once` command: fetch via `CurlClient.get`; on any exception the
`except` block logs the failure and the run ends with nothing processed.
On success, extract, reconcile and upsert.  `parse` stands for the
BeautifulSoup/regex reading of the fetched text into its selector view.
`run-once` contains no regex-sweep call. -/
def runOnce (responses : Nat → Response) (jitter : Nat → ℚ)
    (browser : Except String String) (parse : String → Markup)
    (store : List StoredListing) (now : Nat) : RunOutcome :=
  match (curlGet responses jitter browser).1 with
  | Except.error e => ⟨RunReport.fetchFailure (describeFetchError e), store, 0, false⟩
  | Except.ok html =>
    let items := extract_all (parse html) avitoBase
    let recs := reconcile items
    ⟨RunReport.savedCount recs.length, upsertAll now store recs, recs.length, false⟩

/-- The inputs of the `parse-file` command: the chosen HTML file's parsed
markup, and the optional sibling fallback files (`page_pretty.html`,
`scripts.json` — `none` also when its `json.loads` raised — and `page.txt`). -/
structure ParseFileInputs where
  html : Markup
  pretty : Option Markup
  scriptsJson : Option JValue
  txt : Option Markup

/-- The candidate list the `parse-file` command holds right before the
regex-sweep step: `extract_all` on the main file, then on `page_pretty.html`,
then the `scripts.json` walk recovery, then `extract_all` on `page.txt`,
each tried only while the list is still empty. -/
def parseFilePreSweep (inp : ParseFileInputs) : List Candidate :=
  let items1 := extract_all inp.html avitoBase
  let items2 :=
    if items1.isEmpty then
      match inp.pretty with
      | some m => extract_all m avitoBase
      | none => items1
    else items1
  let items3 :=
    if items2.isEmpty then
      match inp.scriptsJson with
      | some data =>
        let recovered := (walkItems data).filterMap (stateCandidate avitoBase)
        if recovered.isEmpty then items2 else recovered
      | none => items2
    else items2
  if items3.isEmpty then
    match inp.txt with
    | some m => extract_all m avitoBase
    | none => items3
  else items3

/-- The `parse-file` command: the fallback chain, then — only if it is still
empty — the regex sweep over the *raw* main file, then reconcile and upsert. -/
def parseFileRun (inp : ParseFileInputs) (store : List StoredListing) (now : Nat) :
    RunOutcome :=
  let items4 := parseFilePreSweep inp
  let sweepNeeded := items4.isEmpty
  let items5 :=
    if sweepNeeded then
      let regexItems := fallback_regex_sweep avitoBase inp.html.itemAnchors
      if regexItems.isEmpty then items4 else regexItems
    else items4
  let recs := reconcile items5
  ⟨RunReport.savedCount recs.length, upsertAll now store recs, recs.length, sweepNeeded⟩

/-! ## Concrete instances used by counterexamples and witnesses -/

/-- A degenerate jitter draw (0 is inside `[0, 0.5]`). -/
def zeroJitter : Nat → ℚ := fun _ => 0

/-- A network that answers 503 to the first four attempts and 200 afterwards. -/
def fourBlocksResponses : Nat → Response :=
  fun a => if a ≤ 4 then ⟨503, "blocked"⟩ else ⟨200, "okbody"⟩

/-- A network that always answers 204 No Content. -/
def noContentResponses : Nat → Response := fun _ => ⟨204, "nobody"⟩

/-- A network that always answers 404. -/
def notFoundResponses : Nat → Response := fun _ => ⟨404, "missing"⟩

/-- A network that answers 503 to the first attempt and 404 afterwards. -/
def blockThenNotFoundResponses : Nat → Response :=
  fun a => if a = 1 then ⟨503, "blocked"⟩ else ⟨404, "missing"⟩

/-- A network that always answers 200. -/
def okResponses : Nat → Response := fun _ => ⟨200, "page"⟩

/-- A parse view with no selector matches at all. -/
def emptyView : DocView := ⟨[], [], [], [], []⟩

/-- Markup in which nothing matches any selector and no regex anchor exists. -/
def emptyMarkup : Markup := ⟨emptyView, emptyView, []⟩

/-- One structural card pointing at `/item/a`. -/
def tierExampleCard : CardNode :=
  { titleAnchor := some ⟨some "Flat A", "Flat A", some "/item/a"⟩,
    priceText := none, paramsText := none, addressText := none,
    addressNextP := none, descText := none, imgSrcs := [] }

/-- One ld+json script describing `/item/b`. -/
def tierExampleScript : ScriptTag :=
  ⟨some (JValue.obj [("name", JValue.str "Flat B"), ("url", JValue.str "/item/b")])⟩

/-- Markup with one structural card (url `/item/a`) and one structured-data
script (url `/item/b`). -/
def tierExampleMarkup : Markup :=
  { lxmlView := { primaryCards := [tierExampleCard], fallbackCards := [],
                  titleLinks := [], ldJsonScripts := [tierExampleScript],
                  inlineScripts := [] },
    htmlParserView := emptyView, itemAnchors := [] }

/-- A card whose image list carries the same image once absolute and once
protocol-relative. -/
def dupImagesCard : CardNode :=
  { titleAnchor := some ⟨some "Dup", "Dup", some "/item/d"⟩,
    priceText := none, paramsText := none, addressText := none,
    addressNextP := none, descText := none,
    imgSrcs := [some "https://cdn.x/a.jpg", some "//cdn.x/a.jpg"] }

/-- An ld+json script whose image path is root-relative. -/
def relImageScript : ScriptTag :=
  ⟨some (JValue.obj [("name", JValue.str "Rel"), ("url", JValue.str "/item/r"),
                     ("image", JValue.str "/img/a.jpg")])⟩

/-- Markup exhibiting both image handling quirks at once. -/
def dupImagesMarkup : Markup :=
  { lxmlView := { primaryCards := [dupImagesCard], fallbackCards := [],
                  titleLinks := [], ldJsonScripts := [relImageScript],
                  inlineScripts := [] },
    htmlParserView := emptyView, itemAnchors := [] }

/-- Markup whose parse views are empty but whose raw text contains one
sweep-recoverable item anchor. -/
def sweepOnlyMarkup : Markup :=
  { lxmlView := emptyView, htmlParserView := emptyView,
    itemAnchors := [⟨"/item/x", "Nice flat", " 45 000 ₽ rest"⟩] }

/-- Absolute-src-only image lists for the amended image theorem's witness. -/
def absImageSrcs : List (Option String) :=
  [some "https://cdn.x/a.jpg", some "https://cdn.x/a.jpg", some "https://cdn.x/b.jpg"]

/-- Two candidates for one url, with and without images, plus distractors. -/
def reconcileExampleItems : List Candidate :=
  [{ title := some "no-img first", url := some "https://u1", images := [] },
   { title := some "with-img second", url := some "https://u1", images := ["p.jpg"] },
   { title := some "no url", url := none, images := ["q.jpg"] },
   { title := some "other", url := some "https://u2", images := [] }]

/-- A `parse-file` input whose primary markup already yields candidates. -/
def parseFileExampleInputs : ParseFileInputs :=
  { html := tierExampleMarkup, pretty := none, scriptsJson := none, txt := none }

/-!
# Theorems
-/

/-- C10: `CookieStore.load` is total at the public interface: an absent,
unreadable or invalid-JSON cookie file yields the empty default
`{"cookies": [], "cookie_dict": {}}` instead of an exception, and a
well-formed stored cookie set is returned exactly as parsed. -/
theorem cookieLoad_total_and_default :
    (∀ fs, cookieLoad fs = defaultCookies ∨
      ∃ d, fs = CookieFileState.wellFormed d ∧ cookieLoad fs = d)
    ∧ cookieLoad CookieFileState.absent = defaultCookies
    ∧ cookieLoad CookieFileState.unreadable = defaultCookies
    ∧ cookieLoad CookieFileState.invalidJson = defaultCookies
    ∧ (∀ d, cookieLoad (CookieFileState.wellFormed d) = d) := by
  refine ⟨fun fs => ?_, rfl, rfl, rfl, fun d => rfl⟩
  cases fs with
  | absent => exact Or.inl rfl
  | unreadable => exact Or.inl rfl
  | invalidJson => exact Or.inl rfl
  | wellFormed d => exact Or.inr ⟨d, rfl, rfl⟩

/-- C9 counterexample: when neither the title marker nor the catalog marker
appears before the timeout, `PlaywrightClient.get` raises the fallback
wait's `TimeoutError` instead of returning the rendered markup — the claim
that such a call "does not raise" is false at this concrete page. -/
theorem playwright_both_waits_timeout_counterexample :
    playwrightGet ⟨false, false, "<html><body></body></html>"⟩ =
      Except.error "TimeoutError: waiting for catalog container selector" := by
  rfl

/-- C9 amended: if either the listing-title marker or the catalog-container
marker appears before the timeout, the call does not raise and returns the
rendered markup; if neither appears, the unprotected fallback wait's
timeout error propagates and the call raises. -/
theorem playwright_wait_markers (page : BrowserPage) :
    ((page.titleMarkerAppears = true ∨ page.catalogMarkerAppears = true) →
      playwrightGet page = Except.ok page.content)
    ∧ (page.titleMarkerAppears = false → page.catalogMarkerAppears = false →
      ∃ msg, playwrightGet page = Except.error msg) := by
  constructor
  · rintro (h | h) <;> simp [playwrightGet, h]
  · intro h1 h2
    refine ⟨"TimeoutError: waiting for catalog container selector", ?_⟩
    simp [playwrightGet, h1, h2]

/-- C9 witness: a page where only the catalog marker appears still returns
its markup, and one where only the title marker appears does too. -/
theorem playwright_wait_markers_witness :
    playwrightGet ⟨false, true, "catalog-markup"⟩ = Except.ok "catalog-markup"
    ∧ playwrightGet ⟨true, false, "title-markup"⟩ = Except.ok "title-markup" :=
  ⟨(playwright_wait_markers ⟨false, true, "catalog-markup"⟩).1 (Or.inr rfl),
   (playwright_wait_markers ⟨true, false, "title-markup"⟩).1 (Or.inl rfl)⟩

lemma curlGetLoop_attempts_le (responses : Nat → Response) (jitter : Nat → ℚ)
    (browser : Except String String) :
    ∀ rem attempt, (curlGetLoop responses jitter browser attempt rem).2.attempts ≤ rem := by
  intro rem
  induction rem with
  | zero => intro attempt; simp [curlGetLoop]
  | succ n ih =>
    intro attempt
    simp only [curlGetLoop]
    split
    · simp
    · split
      · simpa using Nat.succ_le_succ (ih (attempt + 1))
      · split <;> simp

lemma backoffBound_one : backoffBound 1 = 2 := by
  rw [backoffBound, min_eq_right] <;> norm_num

lemma backoffBound_two : backoffBound 2 = 4 := by
  rw [backoffBound, min_eq_right] <;> norm_num

lemma backoffBound_three : backoffBound 3 = 8 := by
  rw [backoffBound, min_eq_right] <;> norm_num

lemma backoffBound_four : backoffBound 4 = 10 := by
  rw [backoffBound, min_eq_left] ; norm_num

lemma backoffBound_five : backoffBound 5 = 10 := by
  rw [backoffBound, min_eq_left] ; norm_num

lemma curlGetLoop_retryable_exhausts (responses : Nat → Response) (jitter : Nat → ℚ)
    (browser : Except String String) :
    ∀ rem attempt,
      (∀ a, attempt ≤ a → a < attempt + rem →
        (responses a).status = 403 ∨ (responses a).status = 429 ∨ (responses a).status = 503) →
      curlGetLoop responses jitter browser attempt rem =
        (browser.mapError FetchError.browserFailed,
          ⟨rem, (List.range' attempt rem).map (fun a => backoffBound a + jitter a), 1⟩) := by
  intro rem
  induction rem with
  | zero => intro attempt _; simp [curlGetLoop]
  | succ n ih =>
    intro attempt h
    have hhead := h attempt le_rfl (by omega)
    have htail := ih (attempt + 1) (fun a ha1 ha2 => h a (by omega) (by omega))
    rcases hhead with h' | h' | h' <;>
      simp [curlGetLoop, h', htail, List.range'_succ]

/-- C1: `CurlClient.get` makes at most 5 primary attempts; a 200/201 response
returns the body immediately; four 503s followed by a 200 produce exactly the
four sleeps `min(10, 2^attempt) + jitter` — non-decreasing and bounded between
`backoffBound 1` and `backoffBound 4 + 1/2` — before returning the 200 body;
five consecutive retryable statuses invoke the Playwright fallback exactly
once, whose result is returned, with no sixth primary attempt. -/
theorem curlGet_retry_backoff_and_fallback
    (jitter : Nat → ℚ) (hj : ∀ a, 0 ≤ jitter a ∧ jitter a ≤ 1 / 2)
    (responses : Nat → Response) (browser : Except String String) :
    (curlGet responses jitter browser).2.attempts ≤ 5
    ∧ ((responses 1).status = 200 ∨ (responses 1).status = 201 →
        curlGet responses jitter browser = (Except.ok (responses 1).body, ⟨1, [], 0⟩))
    ∧ ((∀ a, 1 ≤ a → a ≤ 4 → (responses a).status = 503) →
        (responses 5).status = 200 →
        curlGet responses jitter browser =
          (Except.ok (responses 5).body,
            ⟨5, [2 + jitter 1, 4 + jitter 2, 8 + jitter 3, 10 + jitter 4], 0⟩)
        ∧ List.Chain' (fun x y => x ≤ y)
            [2 + jitter 1, 4 + jitter 2, 8 + jitter 3, 10 + jitter 4]
        ∧ (∀ s ∈ [2 + jitter 1, 4 + jitter 2, 8 + jitter 3, 10 + jitter 4],
            backoffBound 1 ≤ s ∧ s ≤ backoffBound 4 + 1 / 2))
    ∧ ((∀ a, 1 ≤ a → a ≤ 5 →
          (responses a).status = 403 ∨ (responses a).status = 429 ∨ (responses a).status = 503) →
        (curlGet responses jitter browser).1 = browser.mapError FetchError.browserFailed
        ∧ (curlGet responses jitter browser).2.attempts = 5
        ∧ (curlGet responses jitter browser).2.browserCalls = 1) := by
  refine ⟨curlGetLoop_attempts_le responses jitter browser 5 1, ?_, ?_, ?_⟩
  · intro h
    simp [curlGet, curlGetLoop, h]
  · intro hr h200
    have h1 := hr 1 (by norm_num) (by norm_num)
    have h2 := hr 2 (by norm_num) (by norm_num)
    have h3 := hr 3 (by norm_num) (by norm_num)
    have h4 := hr 4 (by norm_num) (by norm_num)
    refine ⟨?_, ?_, ?_⟩
    · simp [curlGet, curlGetLoop, h1, h2, h3, h4, h200,
        backoffBound_one, backoffBound_two, backoffBound_three, backoffBound_four]
    · have g1 := hj 1
      have g2 := hj 2
      have g3 := hj 3
      have g4 := hj 4
      refine List.chain'_cons.2 ⟨by linarith [g1.2, g2.1], List.chain'_cons.2
        ⟨by linarith [g2.2, g3.1], List.chain'_cons.2
          ⟨by linarith [g3.2, g4.1], List.chain'_singleton _⟩⟩⟩
    · intro s hs
      have g1 := hj 1
      have g2 := hj 2
      have g3 := hj 3
      have g4 := hj 4
      rw [backoffBound_one, backoffBound_four]
      rcases List.mem_cons.1 hs with rfl | hs
      · constructor <;> linarith [g1.1, g1.2]
      rcases List.mem_cons.1 hs with rfl | hs
      · constructor <;> linarith [g2.1, g2.2]
      rcases List.mem_cons.1 hs with rfl | hs
      · constructor <;> linarith [g3.1, g3.2]
      rcases List.mem_cons.1 hs with rfl | hs
      · constructor <;> linarith [g4.1, g4.2]
      · simp at hs
  · intro hr
    have h := curlGetLoop_retryable_exhausts responses jitter browser 5 1
      (fun a ha1 ha2 => hr a ha1 (by omega))
    rw [curlGet, h]
    exact ⟨rfl, rfl, rfl⟩

/-- C1 witness: with zero jitter, four 503s then a 200 produce the body
`"okbody"` after exactly the sleeps `[2, 4, 8, 10]` and no browser call. -/
theorem curlGet_retry_backoff_and_fallback_witness :
    curlGet fourBlocksResponses zeroJitter (Except.ok "bw") =
      (Except.ok "okbody", ⟨5, [2, 4, 8, 10], 0⟩) := by
  have h := curlGet_retry_backoff_and_fallback zeroJitter
    (fun a => by constructor <;> norm_num [zeroJitter])
    fourBlocksResponses (Except.ok "bw")
  have hc := (h.2.2.1 (fun a ha1 ha4 => by
      simp [fourBlocksResponses, ha4]) (by simp [fourBlocksResponses])).1
  simpa [fourBlocksResponses, zeroJitter] using hc

/-- C2 counterexample: a 204 response — neither a success (200/201) nor a
retryable (403/429/503) status — does not make `CurlClient.get` raise:
`raise_for_status` is a no-op below 400 and the body is returned. -/
theorem curlGet_status204_counterexample :
    ((204 : Nat) ≠ 200 ∧ (204 : Nat) ≠ 201 ∧ (204 : Nat) ≠ 403 ∧
      (204 : Nat) ≠ 429 ∧ (204 : Nat) ≠ 503)
    ∧ curlGet noContentResponses zeroJitter (Except.ok "bw") =
        (Except.ok "nobody", ⟨1, [], 0⟩) := by
  exact ⟨by decide, rfl⟩

lemma curlGetLoop_nonretryable_stop (responses : Nat → Response) (jitter : Nat → ℚ)
    (browser : Except String String) :
    ∀ k attempt rem, k < rem →
      (∀ a, attempt ≤ a → a < attempt + k →
        (responses a).status = 403 ∨ (responses a).status = 429 ∨ (responses a).status = 503) →
      (responses (attempt + k)).status ≠ 200 →
      (responses (attempt + k)).status ≠ 201 →
      (responses (attempt + k)).status ≠ 403 →
      (responses (attempt + k)).status ≠ 429 →
      (responses (attempt + k)).status ≠ 503 →
      curlGetLoop responses jitter browser attempt rem =
        ((if 400 ≤ (responses (attempt + k)).status ∧ (responses (attempt + k)).status < 600 then
            Except.error (FetchError.httpStatus (responses (attempt + k)).status)
          else Except.ok (responses (attempt + k)).body),
         ⟨k + 1, (List.range' attempt k).map (fun a => backoffBound a + jitter a), 0⟩) := by
  intro k
  induction k with
  | zero =>
    intro attempt rem hrem _ h200 h201 h403 h429 h503
    obtain ⟨r, rfl⟩ : ∃ r, rem = r + 1 := ⟨rem - 1, by omega⟩
    simp only [Nat.add_zero] at h200 h201 h403 h429 h503
    by_cases hx : 400 ≤ (responses attempt).status ∧ (responses attempt).status < 600
    · simp [curlGetLoop, h200, h201, h403, h429, h503, hx, List.range']
    · simp [curlGetLoop, h200, h201, h403, h429, h503, hx, List.range']
  | succ n ih =>
    intro attempt rem hrem hpre h200 h201 h403 h429 h503
    obtain ⟨r, rfl⟩ : ∃ r, rem = r + 1 := ⟨rem - 1, by omega⟩
    have hhead := hpre attempt le_rfl (by omega)
    have hidx : attempt + 1 + n = attempt + (n + 1) := by omega
    have htail := ih (attempt + 1) r (by omega)
      (fun a ha1 ha2 => hpre a (by omega) (by omega))
      (by rw [hidx]; exact h200) (by rw [hidx]; exact h201)
      (by rw [hidx]; exact h403) (by rw [hidx]; exact h429) (by rw [hidx]; exact h503)
    rcases hhead with h' | h' | h' <;>
      simp [curlGetLoop, h', htail, List.range'_succ, hidx]

/-- C2 amended: arriving at any attempt `n ≤ 5` whose response status is
neither a success status (200/201) nor a retryable status (403/429/503) —
necessarily after `n - 1` retryable responses — always ends the call at that
attempt, with exactly the `n - 1` backoff sleeps already performed and no
browser fallback; it raises exactly when the status is a 4xx/5xx
(`raise_for_status`), and otherwise returns the body immediately. -/
theorem curlGet_nonretryable_stops
    (jitter : Nat → ℚ) (responses : Nat → Response) (browser : Except String String)
    (n : Nat) (hn1 : 1 ≤ n) (hn5 : n ≤ 5)
    (hpre : ∀ a, 1 ≤ a → a < n →
      (responses a).status = 403 ∨ (responses a).status = 429 ∨ (responses a).status = 503)
    (h200 : (responses n).status ≠ 200) (h201 : (responses n).status ≠ 201)
    (h403 : (responses n).status ≠ 403) (h429 : (responses n).status ≠ 429)
    (h503 : (responses n).status ≠ 503) :
    (curlGet responses jitter browser).2 =
      ⟨n, (List.range' 1 (n - 1)).map (fun a => backoffBound a + jitter a), 0⟩
    ∧ (400 ≤ (responses n).status ∧ (responses n).status < 600 →
        (curlGet responses jitter browser).1 =
          Except.error (FetchError.httpStatus (responses n).status))
    ∧ ((responses n).status < 400 ∨ 600 ≤ (responses n).status →
        (curlGet responses jitter browser).1 = Except.ok (responses n).body) := by
  have hidx : 1 + (n - 1) = n := by omega
  have h := curlGetLoop_nonretryable_stop responses jitter browser (n - 1) 1 5 (by omega)
    (fun a ha1 ha2 => hpre a ha1 (by omega))
    (by rw [hidx]; exact h200) (by rw [hidx]; exact h201)
    (by rw [hidx]; exact h403) (by rw [hidx]; exact h429) (by rw [hidx]; exact h503)
  rw [hidx] at h
  have hk : n - 1 + 1 = n := by omega
  rw [hk] at h
  rw [curlGet, h]
  by_cases hx : 400 ≤ (responses n).status ∧ (responses n).status < 600
  · exact ⟨rfl, fun _ => by rw [if_pos hx], fun hc => by omega⟩
  · exact ⟨rfl, fun hc => absurd hc hx, fun _ => by rw [if_neg hx]⟩

/-- C2 amended witness: a 503 on attempt 1 followed by a 404 on attempt 2
ends the call at attempt 2 after exactly one sleep, with no browser call,
and raises the 404. -/
theorem curlGet_nonretryable_stops_witness :
    (curlGet blockThenNotFoundResponses zeroJitter (Except.ok "bw")).2 = ⟨2, [2], 0⟩
    ∧ (curlGet blockThenNotFoundResponses zeroJitter (Except.ok "bw")).1 =
        Except.error (FetchError.httpStatus 404) := by
  have h := curlGet_nonretryable_stops zeroJitter blockThenNotFoundResponses
    (Except.ok "bw") 2 (by norm_num) (by norm_num)
    (fun a ha1 ha2 => by
      have ha : a = 1 := by omega
      subst ha
      exact Or.inr (Or.inr (by decide)))
    (by decide) (by decide) (by decide) (by decide) (by decide)
  refine ⟨?_, ?_⟩
  · simpa [List.range', zeroJitter, backoffBound_one] using h.1
  · simpa [blockThenNotFoundResponses] using h.2.1 (by decide)

/-- C3: `extract_all` runs the structured-data (tier-2) extraction
unconditionally and appends its output after the tier-1 output (tier 1 being
the strict-parse pass, or the lenient-parse pass when the strict one yields
nothing); in particular, markup with one structural card at url A and one
structured-data script at url B yields candidates for both A and B, in that
order. -/
theorem extract_all_tier_additivity :
    (∀ m base, extract_all m base =
      (let cards := extract_from_soup base m.lxmlView
       if cards.isEmpty then extract_from_soup base m.htmlParserView else cards)
      ++ extract_from_scripts base m.lxmlView)
    ∧ (extract_all tierExampleMarkup (some "https://x.test")).map Candidate.url =
        [some "https://x.test/item/a", some "https://x.test/item/b"] := by
  exact ⟨fun m base => rfl, by decide⟩

lemma collectImages_abs (base : Option String) :
    ∀ (srcs : List (Option String)) (acc : List String),
      (∀ s, some s ∈ srcs → pyStartsWith s "//" = false ∧ pyStartsWith s "/" = false) →
      acc.Nodup →
      (collectImages base srcs acc).Nodup
      ∧ (∀ x ∈ collectImages base srcs acc, x ∈ acc ∨ some x ∈ srcs) := by
  intro srcs
  induction srcs with
  | nil =>
    intro acc _ hacc
    exact ⟨hacc, fun x hx => Or.inl hx⟩
  | cons s rest ih =>
    intro acc h hacc
    cases s with
    | none =>
      simp only [collectImages]
      obtain ⟨hn, hm⟩ := ih acc (fun t ht => h t (by simp [ht])) hacc
      refine ⟨hn, fun x hx => ?_⟩
      rcases hm x hx with hx' | hx'
      · exact Or.inl hx'
      · exact Or.inr (by simp [hx'])
    | some src =>
      have hsrc := h src (by simp)
      have hres : resolveImgSrc base src = src := by
        simp [resolveImgSrc, hsrc.1, hsrc.2]
      have hrest : ∀ t, some t ∈ rest →
          pyStartsWith t "//" = false ∧ pyStartsWith t "/" = false :=
        fun t ht => h t (by simp [ht])
      simp only [collectImages, hres]
      by_cases hc : (src != "" && !acc.contains src) = true
      · rw [if_pos hc]
        rw [Bool.and_eq_true] at hc
        have hnotmem : src ∉ acc := by simpa using hc.2
        have hacc2 : (acc ++ [src]).Nodup := by
          simp [List.nodup_append, hacc, hnotmem]
        obtain ⟨hn, hm⟩ := ih (acc ++ [src]) hrest hacc2
        refine ⟨hn, fun x hx => ?_⟩
        rcases hm x hx with hx' | hx'
        · rcases List.mem_append.1 hx' with hx2 | hx2
          · exact Or.inl hx2
          · simp at hx2
            subst hx2
            exact Or.inr (by simp)
        · exact Or.inr (by simp [hx'])
      · rw [if_neg hc]
        obtain ⟨hn, hm⟩ := ih acc hrest hacc
        refine ⟨hn, fun x hx => ?_⟩
        rcases hm x hx with hx' | hx'
        · exact Or.inl hx'
        · exact Or.inr (by simp [hx'])

/-- C6 counterexample: the dedup test runs on the *raw* `src` against the
already-resolved entries, so the same image once absolute and once
protocol-relative yields a duplicated images list in the tier-1 candidate;
and a tier-2 (structured-data) candidate keeps its root-relative image path
unresolved.  Both refute the claimed invariant at this concrete markup. -/
theorem images_invariant_counterexample :
    ((extract_all dupImagesMarkup (some "https://x.test")).map Candidate.images =
      [["https://cdn.x/a.jpg", "https://cdn.x/a.jpg"], ["/img/a.jpg"]])
    ∧ ¬ (["https://cdn.x/a.jpg", "https://cdn.x/a.jpg"] : List String).Nodup
    ∧ pyStartsWith "/img/a.jpg" "/" = true := by
  exact ⟨by decide, by decide, by decide⟩

/-- C6 amended: the tier-1 image loop deduplicates each raw `src` against the
already-collected (resolved) entries and then resolves protocol- or root-relative
paths; consequently, when every `src` is already absolute (neither `//…` nor
`/…`), the candidate's images are duplicate-free and are exactly (a subset of)
the raw srcs.  Tier-2 flat-path candidates carry the structured-data image
list verbatim — with no deduplication and no resolution. -/
theorem images_dedup_and_resolution (base : Option String) (srcs : List (Option String))
    (h : ∀ s, some s ∈ srcs → pyStartsWith s "//" = false ∧ pyStartsWith s "/" = false) :
    (collectImages base srcs []).Nodup
    ∧ (∀ x ∈ collectImages base srcs [], some x ∈ srcs)
    ∧ (∀ l : List JValue, ldImagesFlat (some (JValue.arr l)) =
        l.filterMap (fun x => match x with | JValue.str s => some s | _ => none)) := by
  have hmain := collectImages_abs base srcs [] h (List.nodup_nil)
  refine ⟨hmain.1, fun x hx => ?_, fun l => rfl⟩
  rcases hmain.2 x hx with hx' | hx'
  · simp at hx'
  · exact hx'

/-- C6 amended witness: three absolute srcs with one repetition produce a
duplicate-free images list. -/
theorem images_dedup_and_resolution_witness :
    (collectImages none absImageSrcs []).Nodup :=
  (images_dedup_and_resolution none absImageSrcs (by
    intro t ht
    simp only [absImageSrcs, List.mem_cons, List.not_mem_nil, or_false,
      Option.some.injEq] at ht
    rcases ht with rfl | rfl | rfl <;> exact ⟨by decide, by decide⟩)).1

/-- C4 counterexample: in a `run-once` invocation whose markup yields zero
candidates from tiers 1+2, the run concludes zero records *without* ever
attempting the regex sweep — even though the sweep over the same raw markup
would have recovered an item. -/
theorem run_once_no_sweep_counterexample :
    extract_all sweepOnlyMarkup avitoBase = []
    ∧ fallback_regex_sweep avitoBase sweepOnlyMarkup.itemAnchors ≠ []
    ∧ (runOnce okResponses zeroJitter (Except.ok "bw")
        (fun _ => sweepOnlyMarkup) [] 0).sweepInvoked = false
    ∧ (runOnce okResponses zeroJitter (Except.ok "bw")
        (fun _ => sweepOnlyMarkup) [] 0).saved = 0 := by
  exact ⟨by decide, by decide, by decide, by decide⟩

/-- C4 amended: the `run-once` command never invokes the regex sweep; the
`parse-file` command invokes it exactly when tiers 1+2 over the main file
*and every file-based fallback* produced zero candidates — in particular it
is never invoked when `extract_all` on the main markup produced at least one
candidate. -/
theorem regex_sweep_last_resort :
    (∀ responses jitter browser parse store now,
      (runOnce responses jitter browser parse store now).sweepInvoked = false)
    ∧ (∀ inp store now,
      ((parseFileRun inp store now).sweepInvoked = true ↔ parseFilePreSweep inp = []))
    ∧ (∀ inp store now, extract_all inp.html avitoBase ≠ [] →
      (parseFileRun inp store now).sweepInvoked = false) := by
  refine ⟨fun responses jitter browser parse store now => ?_,
          fun inp store now => ?_, fun inp store now h => ?_⟩
  · cases h : (curlGet responses jitter browser).1 <;> simp [runOnce, h]
  · simp [parseFileRun, List.isEmpty_iff]
  · have hpre : parseFilePreSweep inp = extract_all inp.html avitoBase := by
      simp [parseFilePreSweep, List.isEmpty_iff, h]
    simp [parseFileRun, List.isEmpty_iff, hpre, h]

/-- C4 amended witness: a `parse-file` input whose main markup yields
candidates never reaches the sweep. -/
theorem regex_sweep_last_resort_witness :
    (parseFileRun parseFileExampleInputs [] 0).sweepInvoked = false :=
  regex_sweep_last_resort.2.2 parseFileExampleInputs [] 0 (by decide)

lemma lookupSeen_append (u : String) (l1 l2 : List (String × Candidate)) :
    lookupSeen u (l1 ++ l2) =
      match lookupSeen u l1 with
      | some v => some v
      | none => lookupSeen u l2 := by
  induction l1 with
  | nil => simp [lookupSeen]
  | cons p rest ih =>
    obtain ⟨k, v⟩ := p
    by_cases h : k = u
    · subst h
      simp [lookupSeen]
    · simp [lookupSeen, h, ih]

lemma lookupSeen_map_replace (u : String) (d : Candidate)
    (seen : List (String × Candidate)) :
    lookupSeen u (seen.map (fun p => if p.1 = u then (u, d) else p)) =
      (lookupSeen u seen).map (fun _ => d) := by
  induction seen with
  | nil => simp [lookupSeen]
  | cons p rest ih =>
    obtain ⟨k, v⟩ := p
    rw [List.map_cons]
    by_cases h : k = u
    · subst h
      rw [if_pos (show ((k, v).1 : String) = k from rfl)]
      simp [lookupSeen]
    · rw [if_neg (show ¬((k, v).1 = u) from h)]
      simp [lookupSeen, h, ih]

lemma lookupSeen_map_replace_ne (w u : String) (hne : w ≠ u) (d : Candidate)
    (seen : List (String × Candidate)) :
    lookupSeen w (seen.map (fun p => if p.1 = u then (u, d) else p)) =
      lookupSeen w seen := by
  induction seen with
  | nil => simp [lookupSeen]
  | cons p rest ih =>
    obtain ⟨k, v⟩ := p
    rw [List.map_cons]
    by_cases h : k = u
    · subst h
      rw [if_pos (show ((k, v).1 : String) = k from rfl)]
      simp [lookupSeen, Ne.symm hne, ih]
    · rw [if_neg (show ¬((k, v).1 = u) from h)]
      simp [lookupSeen, ih]

lemma keys_map_replace (u : String) (d : Candidate) (seen : List (String × Candidate)) :
    (seen.map (fun p => if p.1 = u then (u, d) else p)).map Prod.fst =
      seen.map Prod.fst := by
  induction seen with
  | nil => simp
  | cons p rest ih =>
    obtain ⟨k, v⟩ := p
    rw [List.map_cons]
    by_cases h : k = u
    · subst h
      rw [if_pos (show ((k, v).1 : String) = k from rfl)]
      simp [ih]
    · rw [if_neg (show ¬((k, v).1 = u) from h)]
      simp [ih]

lemma lookupSeen_eq_none_iff (u : String) (seen : List (String × Candidate)) :
    lookupSeen u seen = none ↔ u ∉ seen.map Prod.fst := by
  induction seen with
  | nil => simp [lookupSeen]
  | cons p rest ih =>
    obtain ⟨k, v⟩ := p
    by_cases h : k = u
    · subst h
      simp [lookupSeen]
    · simp [lookupSeen, h, ih, Ne.symm h]

lemma reconcileStep_keys_nodup (seen : List (String × Candidate)) (d : Candidate)
    (h : (seen.map Prod.fst).Nodup) :
    ((reconcileStep seen d).map Prod.fst).Nodup := by
  rcases hd : d.url with _ | v
  · simpa [reconcileStep, hd] using h
  · simp only [reconcileStep, hd]
    by_cases hv : v = ""
    · simpa [hv] using h
    · rw [if_neg hv]
      rcases hL : lookupSeen v seen with _ | e
      · have hnm : v ∉ seen.map Prod.fst := (lookupSeen_eq_none_iff v seen).1 hL
        simpa [List.nodup_append, hnm] using h
      · by_cases he : e.images.isEmpty
        · by_cases hdi : d.images.isEmpty
          · simpa [he, hdi] using h
          · rw [Bool.not_eq_true] at hdi
            have hrepl :
                ((seen.map (fun p => if p.1 = v then (v, d) else p)).map Prod.fst).Nodup := by
              rw [keys_map_replace]
              exact h
            simpa [he, hdi] using hrepl
        · simpa [he] using h

lemma reconcile_keys_nodup_aux :
    ∀ (l : List Candidate) (seen : List (String × Candidate)),
      (seen.map Prod.fst).Nodup →
      ((List.foldl reconcileStep seen l).map Prod.fst).Nodup := by
  intro l
  induction l with
  | nil => intro seen h; simpa using h
  | cons d rest ih =>
    intro seen h
    simpa using ih (reconcileStep seen d) (reconcileStep_keys_nodup seen d h)

lemma lookupSeen_empty_key_none :
    ∀ (l : List Candidate) (seen : List (String × Candidate)),
      lookupSeen "" seen = none →
      lookupSeen "" (List.foldl reconcileStep seen l) = none := by
  intro l
  induction l with
  | nil => intro seen h; simpa using h
  | cons d rest ih =>
    intro seen h
    refine ih (reconcileStep seen d) ?_
    rcases hd : d.url with _ | v
    · simpa [reconcileStep, hd] using h
    · simp only [reconcileStep, hd]
      by_cases hv : v = ""
      · simpa [hv] using h
      · rw [if_neg hv]
        rcases hL : lookupSeen v seen with _ | e
        · rw [lookupSeen_append]
          simp [h, lookupSeen, hv]
        · by_cases he : e.images.isEmpty
          · by_cases hdi : d.images.isEmpty
            · simpa [he, hdi] using h
            · rw [Bool.not_eq_true] at hdi
              have hrepl :
                  lookupSeen "" (seen.map (fun p => if p.1 = v then (v, d) else p)) =
                    none := by
                rw [lookupSeen_map_replace_ne "" v (Ne.symm hv)]
                exact h
              simpa [he, hdi] using hrepl
          · rw [Bool.not_eq_true] at he
            simpa [he] using h

lemma find?_cons_true {α : Type} (p : α → Bool) (a : α) (l : List α)
    (h : p a = true) : List.find? p (a :: l) = some a := by
  simp [List.find?, h]

lemma find?_cons_false {α : Type} (p : α → Bool) (a : α) (l : List α)
    (h : p a = false) : List.find? p (a :: l) = List.find? p l := by
  simp [List.find?, h]

lemma reconcile_fold_lookup (u : String) (hu : u ≠ "") :
    ∀ (l : List Candidate) (seen : List (String × Candidate)),
      lookupSeen u (List.foldl reconcileStep seen l) =
        match lookupSeen u seen with
        | some e =>
          if e.images.isEmpty then
            match l.find? (fun d => d.url == some u && !d.images.isEmpty) with
            | some d => some d
            | none => some e
          else some e
        | none =>
          match l.find? (fun d => d.url == some u && !d.images.isEmpty) with
          | some d => some d
          | none => l.find? (fun d => d.url == some u) := by
  intro l
  induction l with
  | nil =>
    intro seen
    rcases h : lookupSeen u seen with _ | e
    · simpa [List.find?] using h
    · by_cases he : e.images.isEmpty <;> simpa [he, List.find?] using h
  | cons d rest ih =>
    intro seen
    rw [List.foldl_cons, ih (reconcileStep seen d)]
    rcases hd : d.url with _ | v
    · have hstep : reconcileStep seen d = seen := by simp [reconcileStep, hd]
      rw [hstep,
        find?_cons_false (fun c : Candidate => c.url == some u && !c.images.isEmpty)
          d rest (by simp [hd]),
        find?_cons_false (fun c : Candidate => c.url == some u) d rest (by simp [hd])]
    · by_cases hv : v = u
      · rw [hv] at hd
        rcases hL : lookupSeen u seen with _ | e
        · have hstep : reconcileStep seen d = seen ++ [(u, d)] := by
            simp [reconcileStep, hd, hu, hL]
          have hlk : lookupSeen u (reconcileStep seen d) = some d := by
            rw [hstep, lookupSeen_append, hL]
            simp [lookupSeen]
          rw [hlk]
          by_cases hdi : d.images.isEmpty
          · rw [find?_cons_false (fun c : Candidate => c.url == some u && !c.images.isEmpty)
                d rest (by simp [hd, hdi]),
              find?_cons_true (fun c : Candidate => c.url == some u) d rest (by simp [hd])]
            simp [hdi]
          · rw [Bool.not_eq_true] at hdi
            rw [find?_cons_true (fun c : Candidate => c.url == some u && !c.images.isEmpty)
                d rest (by simp [hd, hdi])]
            simp [hdi]
        · by_cases he : e.images.isEmpty
          · by_cases hdi : d.images.isEmpty
            · have hstep : reconcileStep seen d = seen := by
                simp [reconcileStep, hd, hu, hL, he, hdi]
              rw [hstep, hL,
                find?_cons_false (fun c : Candidate => c.url == some u && !c.images.isEmpty)
                  d rest (by simp [hd, hdi])]
            · rw [Bool.not_eq_true] at hdi
              have hstep : reconcileStep seen d =
                  seen.map (fun p => if p.1 = u then (u, d) else p) := by
                simp [reconcileStep, hd, hu, hL, he, hdi]
              rw [hstep, lookupSeen_map_replace, hL,
                find?_cons_true (fun c : Candidate => c.url == some u && !c.images.isEmpty)
                  d rest (by simp [hd, hdi])]
              simp [he, hdi]
          · rw [Bool.not_eq_true] at he
            have hstep : reconcileStep seen d = seen := by
              simp [reconcileStep, hd, hu, hL, he]
            rw [hstep, hL]
            by_cases hdi : d.images.isEmpty
            · rw [find?_cons_false (fun c : Candidate => c.url == some u && !c.images.isEmpty)
                  d rest (by simp [hd, hdi])]
            · rw [Bool.not_eq_true] at hdi
              rw [find?_cons_true (fun c : Candidate => c.url == some u && !c.images.isEmpty)
                  d rest (by simp [hd, hdi])]
              simp [he]
      · have hstep : lookupSeen u (reconcileStep seen d) = lookupSeen u seen := by
          simp only [reconcileStep, hd]
          by_cases hv0 : v = ""
          · simp [hv0]
          · rw [if_neg hv0]
            rcases hL : lookupSeen v seen with _ | e
            · rw [lookupSeen_append]
              rcases h2 : lookupSeen u seen with _ | w
              · simp [lookupSeen, hv]
              · simp
            · by_cases he : e.images.isEmpty
              · by_cases hdi : d.images.isEmpty
                · simp [he, hdi]
                · rw [Bool.not_eq_true] at hdi
                  have hrepl :
                      lookupSeen u (seen.map (fun p => if p.1 = v then (v, d) else p)) =
                        lookupSeen u seen :=
                    lookupSeen_map_replace_ne u v (Ne.symm hv) d seen
                  simpa [he, hdi] using hrepl
              · rw [Bool.not_eq_true] at he
                simp [he]
        rw [hstep,
          find?_cons_false (fun c : Candidate => c.url == some u && !c.images.isEmpty)
            d rest (by simp [hd, hv]),
          find?_cons_false (fun c : Candidate => c.url == some u) d rest (by simp [hd, hv])]

/-- C5: reconciliation drops every candidate whose url is absent (Python-falsy:
missing or empty), groups the rest by url and keeps exactly one candidate per
url: the keys of the reconciled batch are duplicate-free, a url appears iff
some candidate carried it, and the kept candidate for a url is the first one
with a non-empty images list when any exists — regardless of arrival order
relative to image-less candidates — and the earliest-seen candidate
otherwise. -/
theorem reconcile_by_url_precedence (items : List Candidate) :
    ((reconcile items).map Prod.fst).Nodup
    ∧ (∀ u, (lookupSeen u (reconcile items)).isSome ↔
        (u ≠ "" ∧ ∃ d ∈ items, d.url = some u))
    ∧ (∀ u, u ≠ "" → lookupSeen u (reconcile items) =
        match items.find? (fun d => d.url == some u && !d.images.isEmpty) with
        | some d => some d
        | none => items.find? (fun d => d.url == some u)) := by
  refine ⟨reconcile_keys_nodup_aux items [] (by simp), ?_, ?_⟩
  · intro u
    by_cases hu : u = ""
    · subst hu
      have h0 : lookupSeen "" (reconcile items) = none :=
        lookupSeen_empty_key_none items [] (by simp [lookupSeen])
      simp [h0]
    · have h := reconcile_fold_lookup u hu items []
      simp only [lookupSeen] at h
      rw [show reconcile items = List.foldl reconcileStep [] items from rfl, h]
      constructor
      · intro hsome
        refine ⟨hu, ?_⟩
        rcases hf : items.find? (fun d => d.url == some u && !d.images.isEmpty) with _ | d
        · rw [hf] at hsome
          simp only [List.find?_isSome] at hsome
          obtain ⟨d, hd, hq⟩ := hsome
          exact ⟨d, hd, by simpa using hq⟩
        · have hd := List.mem_of_find?_eq_some hf
          have hq := List.find?_some hf
          simp only [Bool.and_eq_true, beq_iff_eq] at hq
          exact ⟨d, hd, hq.1⟩
      · rintro ⟨-, d, hd, hurl⟩
        rcases hf : items.find? (fun c => c.url == some u && !c.images.isEmpty) with _ | c
        · rw [hf]
          simp only [List.find?_isSome]
          exact ⟨d, hd, by simp [hurl]⟩
        · rw [hf]
          simp
  · intro u hu
    have h := reconcile_fold_lookup u hu items []
    simp only [lookupSeen] at h
    exact h

/-- C5 witness: with two candidates for `https://u1` — an image-less one
first, an image-bearing one second — the kept candidate is the one given by
the precedence characterisation (the image-bearing one). -/
theorem reconcile_by_url_precedence_witness :
    lookupSeen "https://u1" (reconcile reconcileExampleItems) =
      match reconcileExampleItems.find?
          (fun d => d.url == some "https://u1" && !d.images.isEmpty) with
      | some d => some d
      | none => reconcileExampleItems.find? (fun d => d.url == some "https://u1") :=
  (reconcile_by_url_precedence reconcileExampleItems).2.2 "https://u1" (by decide)

lemma find?_append_none {α : Type} (p : α → Bool) :
    ∀ l1 l2 : List α, l1.find? p = none → (l1 ++ l2).find? p = l2.find? p := by
  intro l1
  induction l1 with
  | nil => intro l2 _; simp
  | cons a l ih =>
    intro l2 h
    cases hpa : p a with
    | true =>
      rw [find?_cons_true p a l hpa] at h
      exact (Option.some_ne_none _ h).elim
    | false =>
      rw [find?_cons_false p a l hpa] at h
      rw [List.cons_append, find?_cons_false p a (l ++ l2) hpa]
      exact ih l2 h

lemma find?_append_some {α : Type} (p : α → Bool) :
    ∀ (l1 l2 : List α) (a : α), l1.find? p = some a → (l1 ++ l2).find? p = some a := by
  intro l1
  induction l1 with
  | nil => intro l2 a h; simp [List.find?] at h
  | cons b l ih =>
    intro l2 a h
    cases hpb : p b with
    | true =>
      rw [find?_cons_true p b l hpb] at h
      rw [List.cons_append, find?_cons_true p b _ hpb]
      exact h
    | false =>
      rw [find?_cons_false p b l hpb] at h
      rw [List.cons_append, find?_cons_false p b _ hpb]
      exact ih l2 a h

lemma overwriteListing_url (now : Nat) (old : StoredListing) (c : Candidate) :
    (overwriteListing now old c).url = old.url := by
  by_cases h : fieldsChanged old c <;> simp [overwriteListing, h]

lemma map_overwrite_urls (now : Nat) (u : String) (c : Candidate) :
    ∀ st : List StoredListing,
      ((st.map (fun o => if o.url = u then overwriteListing now o c else o)).map
        StoredListing.url) = st.map StoredListing.url := by
  intro st
  induction st with
  | nil => simp
  | cons a l ih =>
    rw [List.map_cons]
    by_cases ha : a.url = u
    · rw [if_pos ha, List.map_cons, List.map_cons, overwriteListing_url, ih]
    · rw [if_neg ha, List.map_cons, List.map_cons, ih]

lemma upsertStep_urls_nodup (now : Nat) (u : String) (c : Candidate)
    (st : List StoredListing) (h : (st.map StoredListing.url).Nodup) :
    ((upsertStep now st (u, c)).map StoredListing.url).Nodup := by
  rcases hf : st.find? (fun o => o.url = u) with _ | old
  · have hne : ∀ o ∈ st, o.url ≠ u := by
      intro o ho
      have := List.find?_eq_none.1 hf o ho
      simpa using this
    have hnm : u ∉ st.map StoredListing.url := by
      intro hm
      obtain ⟨o, ho, rfl⟩ := List.mem_map.1 hm
      exact hne o ho rfl
    simp only [upsertStep, hf]
    simpa [List.nodup_append, newListing, hnm] using h
  · simp only [upsertStep, hf]
    rw [map_overwrite_urls]
    exact h

lemma upsertAll_urls_nodup (now : Nat) :
    ∀ (recs : List (String × Candidate)) (st : List StoredListing),
      (st.map StoredListing.url).Nodup →
      ((upsertAll now st recs).map StoredListing.url).Nodup := by
  intro recs
  induction recs with
  | nil => intro st h; simpa [upsertAll] using h
  | cons r rest ih =>
    intro st h
    obtain ⟨u, c⟩ := r
    simpa [upsertAll] using ih (upsertStep now st (u, c)) (upsertStep_urls_nodup now u c st h)

lemma find?_overwrite_same (now : Nat) (u : String) (c : Candidate) :
    ∀ (st : List StoredListing) (old : StoredListing),
      st.find? (fun o => o.url = u) = some old →
      (st.map (fun o => if o.url = u then overwriteListing now o c else o)).find?
        (fun o => o.url = u) = some (overwriteListing now old c) := by
  intro st
  induction st with
  | nil => intro old h; simp [List.find?] at h
  | cons a l ih =>
    intro old h
    by_cases ha : a.url = u
    · rw [find?_cons_true _ a l (by simp [ha])] at h
      have haold := Option.some.inj h
      subst haold
      rw [List.map_cons, if_pos ha,
        find?_cons_true _ _ _ (by simp [overwriteListing_url, ha])]
    · rw [find?_cons_false _ a l (by simp [ha])] at h
      rw [List.map_cons, if_neg ha, find?_cons_false _ a _ (by simp [ha])]
      exact ih old h

lemma find?_overwrite_other (now : Nat) (v : String) (c : Candidate) (u : String)
    (hne : u ≠ v) :
    ∀ st : List StoredListing,
      (st.map (fun o => if o.url = v then overwriteListing now o c else o)).find?
        (fun o => o.url = u) = st.find? (fun o => o.url = u) := by
  intro st
  induction st with
  | nil => simp
  | cons a l ih =>
    by_cases ha : a.url = v
    · rw [List.map_cons, if_pos ha,
        find?_cons_false _ _ _ (by simp [overwriteListing_url, ha, Ne.symm hne]),
        find?_cons_false _ a l (by simp [ha, Ne.symm hne]), ih]
    · rw [List.map_cons, if_neg ha]
      by_cases hau : a.url = u
      · rw [find?_cons_true _ a _ (by simp [hau]), find?_cons_true _ a l (by simp [hau])]
      · rw [find?_cons_false _ a _ (by simp [hau]), find?_cons_false _ a l (by simp [hau]), ih]

lemma upsertStep_find_same (now : Nat) (u : String) (c : Candidate)
    (st : List StoredListing) :
    (upsertStep now st (u, c)).find? (fun o => o.url = u) =
      some (match st.find? (fun o => o.url = u) with
            | some old => overwriteListing now old c
            | none => newListing now u c) := by
  rcases hf : st.find? (fun o => o.url = u) with _ | old
  · simp only [upsertStep, hf]
    rw [find?_append_none _ st _ hf, find?_cons_true _ _ _ (by simp [newListing])]
  · simp only [upsertStep, hf]
    exact find?_overwrite_same now u c st old hf

lemma upsertStep_find_other (now : Nat) (v : String) (c : Candidate) (u : String)
    (hne : u ≠ v) (st : List StoredListing) :
    (upsertStep now st (v, c)).find? (fun o => o.url = u) =
      st.find? (fun o => o.url = u) := by
  rcases hf : st.find? (fun o => o.url = v) with _ | old
  · simp only [upsertStep, hf]
    rcases hg : st.find? (fun o => o.url = u) with _ | row
    · rw [find?_append_none _ st _ hg,
        find?_cons_false _ _ _ (by simp [newListing, Ne.symm hne]), hg]
      simp [List.find?]
    · rw [find?_append_some _ st _ row hg, hg]
  · simp only [upsertStep, hf]
    exact find?_overwrite_other now v c u hne st

lemma upsertAll_find_preserved (now : Nat) (u : String) :
    ∀ (recs : List (String × Candidate)) (st : List StoredListing),
      u ∉ recs.map Prod.fst →
      (upsertAll now st recs).find? (fun o => o.url = u) =
        st.find? (fun o => o.url = u) := by
  intro recs
  induction recs with
  | nil => intro st _; simp [upsertAll]
  | cons r rest ih =>
    intro st hm
    obtain ⟨v, c⟩ := r
    have hne : u ≠ v := by
      intro h
      exact hm (by simp [h])
    have hm' : u ∉ rest.map Prod.fst := by
      intro h
      exact hm (by simp [h])
    calc (upsertAll now st ((v, c) :: rest)).find? (fun o => o.url = u)
        = (upsertAll now (upsertStep now st (v, c)) rest).find? (fun o => o.url = u) := rfl
      _ = (upsertStep now st (v, c)).find? (fun o => o.url = u) := ih _ hm'
      _ = st.find? (fun o => o.url = u) := upsertStep_find_other now v c u hne st

lemma upsertAll_find_mem (now : Nat) :
    ∀ (recs : List (String × Candidate)) (st : List StoredListing)
      (u : String) (c : Candidate),
      (recs.map Prod.fst).Nodup → (u, c) ∈ recs →
      (upsertAll now st recs).find? (fun o => o.url = u) =
        some (match st.find? (fun o => o.url = u) with
              | some old => overwriteListing now old c
              | none => newListing now u c) := by
  intro recs
  induction recs with
  | nil => intro st u c _ hmem; simp at hmem
  | cons r rest ih =>
    intro st u c hnd hmem
    obtain ⟨v, d⟩ := r
    rcases List.mem_cons.1 hmem with hhead | htail
    · injection hhead with h1 h2
      subst h1
      subst h2
      have hrest : u ∉ rest.map Prod.fst := by
        have := hnd
        simp only [List.map_cons, List.nodup_cons] at this
        exact this.1
      calc (upsertAll now st ((u, c) :: rest)).find? (fun o => o.url = u)
          = (upsertAll now (upsertStep now st (u, c)) rest).find? (fun o => o.url = u) := rfl
        _ = (upsertStep now st (u, c)).find? (fun o => o.url = u) :=
            upsertAll_find_preserved now u rest _ hrest
        _ = _ := upsertStep_find_same now u c st
    · have hvrest : v ∉ rest.map Prod.fst := by
        have := hnd
        simp only [List.map_cons, List.nodup_cons] at this
        exact this.1
      have hne : u ≠ v := by
        intro h
        exact hvrest (h ▸ List.mem_map.2 ⟨(u, c), htail, rfl⟩)
      have hnd' : (rest.map Prod.fst).Nodup := by
        have := hnd
        simp only [List.map_cons, List.nodup_cons] at this
        exact this.2
      have hstep := upsertStep_find_other now v d u hne st
      calc (upsertAll now st ((v, d) :: rest)).find? (fun o => o.url = u)
          = (upsertAll now (upsertStep now st (v, d)) rest).find? (fun o => o.url = u) := rfl
        _ = some (match (upsertStep now st (v, d)).find? (fun o => o.url = u) with
              | some old => overwriteListing now old c
              | none => newListing now u c) := ih _ u c hnd' htail
        _ = _ := by rw [hstep]

lemma countP_url_eq_one (u : String) :
    ∀ st : List StoredListing,
      (st.map StoredListing.url).Nodup →
      (st.find? (fun o => o.url = u)).isSome →
      st.countP (fun o => decide (o.url = u)) = 1 := by
  intro st
  induction st with
  | nil => intro _ h; simp [List.find?] at h
  | cons a l ih =>
    intro hnd hsome
    have hnd' : (l.map StoredListing.url).Nodup := by
      simp only [List.map_cons, List.nodup_cons] at hnd
      exact hnd.2
    by_cases ha : a.url = u
    · have hnin : a.url ∉ l.map StoredListing.url := by
        simp only [List.map_cons, List.nodup_cons] at hnd
        exact hnd.1
      have hzero : l.countP (fun o => decide (o.url = u)) = 0 := by
        rw [List.countP_eq_zero]
        intro o ho
        simp only [decide_eq_true_eq]
        intro hou
        exact hnin (ha ▸ hou ▸ List.mem_map.2 ⟨o, ho, rfl⟩)
      rw [List.countP_cons, hzero]
      simp [ha]
    · rw [find?_cons_false _ a l (by simp [ha])] at hsome
      rw [List.countP_cons]
      simp [ha, ih hnd' hsome]

lemma newListing_fields (now : Nat) (u : String) (c : Candidate) :
    fieldsFromCandidate (newListing now u c) c :=
  ⟨rfl, rfl, rfl, rfl, rfl, rfl, rfl, rfl, rfl, rfl, rfl, rfl, rfl, rfl, rfl⟩

lemma fieldsChanged_false_of_fields (old : StoredListing) (c : Candidate)
    (h : fieldsFromCandidate old c) : fieldsChanged old c = false := by
  obtain ⟨h1, h2, h3, h4, h5, h6, h7, h8, h9, h10, h11, h12, h13, h14, h15⟩ := h
  simp [fieldsChanged, h1, h2, h3, h4, h5, h6, h7, h8, h9, h10, h11, h12, h13, h14, h15]

lemma fields_of_fieldsChanged_false (old : StoredListing) (c : Candidate)
    (h : fieldsChanged old c = false) : fieldsFromCandidate old c := by
  simp only [fieldsChanged, Bool.or_eq_false_iff, bne_eq_false_iff_eq] at h
  obtain ⟨⟨⟨⟨⟨⟨⟨⟨⟨⟨⟨⟨⟨⟨h1, h2⟩, h3⟩, h4⟩, h5⟩, h6⟩, h7⟩, h8⟩, h9⟩, h10⟩, h11⟩,
    h12⟩, h13⟩, h14⟩, h15⟩ := h
  exact ⟨h1, h2, h3, h4, h5, h6, h7, h8, h9, h10, h11, h12, h13, h14, h15⟩

lemma overwrite_of_unchanged (now : Nat) (old : StoredListing) (c : Candidate)
    (h : fieldsFromCandidate old c) : overwriteListing now old c = old := by
  simp [overwriteListing, fieldsChanged_false_of_fields old c h]

lemma overwriteListing_fields (now : Nat) (old : StoredListing) (c : Candidate) :
    fieldsFromCandidate (overwriteListing now old c) c := by
  by_cases hch : fieldsChanged old c = true
  · simp [overwriteListing, hch, fieldsFromCandidate]
  · rw [Bool.not_eq_true] at hch
    have hold := fields_of_fieldsChanged_false old c hch
    rw [overwrite_of_unchanged now old c hold]
    exact hold

/-- C7 counterexample: persisting the reconciled example batch twice, at
instant 0 and then at the strictly later instant 1, leaves the store — every
row, `updated_at` included — bit-for-bit unchanged: the second, identical run
assigns only values equal to the stored ones, the ORM emits no UPDATE, and
`onupdate` never fires, so `updated_at` stays 0 instead of strictly
advancing. -/
theorem upsert_updated_at_counterexample :
    ((0 : Nat) < 1)
    ∧ upsertAll 1 (upsertAll 0 [] (reconcile reconcileExampleItems))
        (reconcile reconcileExampleItems) =
      upsertAll 0 [] (reconcile reconcileExampleItems)
    ∧ (upsertAll 0 [] (reconcile reconcileExampleItems)).map StoredListing.updated_at =
        [0, 0] := by
  exact ⟨by decide, by decide, by decide⟩

/-- C7 amended: reconciling and persisting the same candidate batch twice
against a url-unique store leaves exactly one row per batch url, with the
second run's row identical to the first run's — every assigned field already
carries the candidate's values, so `created_at` *and* `updated_at` are both
unchanged (the ORM suppresses the UPDATE when nothing differs); an update
overwrites every field and advances `updated_at` to the write instant exactly
when at least one assigned value differs from the stored one. -/
theorem upsert_second_run_noop (items : List Candidate) (store : List StoredListing)
    (t1 t2 : Nat) (_ht : t1 < t2) (hst : (store.map StoredListing.url).Nodup) :
    (((upsertAll t2 (upsertAll t1 store (reconcile items)) (reconcile items)).map
        StoredListing.url).Nodup)
    ∧ (∀ u c, (u, c) ∈ reconcile items →
        ∃ r1, (upsertAll t1 store (reconcile items)).find? (fun o => o.url = u) = some r1
          ∧ fieldsFromCandidate r1 c
          ∧ (upsertAll t2 (upsertAll t1 store (reconcile items))
              (reconcile items)).find? (fun o => o.url = u) = some r1
          ∧ (upsertAll t2 (upsertAll t1 store (reconcile items))
              (reconcile items)).countP (fun o => decide (o.url = u)) = 1)
    ∧ (∀ now old c2, fieldsFromCandidate old c2 → overwriteListing now old c2 = old)
    ∧ (∀ now old c2, fieldsChanged old c2 = true →
        (overwriteListing now old c2).updated_at = now
        ∧ (overwriteListing now old c2).created_at = old.created_at
        ∧ fieldsFromCandidate (overwriteListing now old c2) c2) := by
  have hkeys : ((reconcile items).map Prod.fst).Nodup :=
    reconcile_keys_nodup_aux items [] (by simp)
  have hn1 : ((upsertAll t1 store (reconcile items)).map StoredListing.url).Nodup :=
    upsertAll_urls_nodup t1 (reconcile items) store hst
  have hn2 : ((upsertAll t2 (upsertAll t1 store (reconcile items))
      (reconcile items)).map StoredListing.url).Nodup :=
    upsertAll_urls_nodup t2 (reconcile items) _ hn1
  refine ⟨hn2, fun u c hmem => ?_,
    fun now old c2 h => overwrite_of_unchanged now old c2 h,
    fun now old c2 hch => by simp [overwriteListing, hch, fieldsFromCandidate]⟩
  have h1 := upsertAll_find_mem t1 (reconcile items) store u c hkeys hmem
  have h2 := upsertAll_find_mem t2 (reconcile items)
    (upsertAll t1 store (reconcile items)) u c hkeys hmem
  rw [h1] at h2
  have hr1 : fieldsFromCandidate
      (match store.find? (fun o : StoredListing => o.url = u) with
       | some old => overwriteListing t1 old c
       | none => newListing t1 u c) c := by
    generalize store.find? (fun o : StoredListing => o.url = u) = sf
    rcases sf with _ | old
    · exact newListing_fields t1 u c
    · exact overwriteListing_fields t1 old c
  have h2iota : (upsertAll t2 (upsertAll t1 store (reconcile items))
      (reconcile items)).find? (fun o => o.url = u) =
        some (overwriteListing t2
          (match store.find? (fun o : StoredListing => o.url = u) with
           | some old => overwriteListing t1 old c
           | none => newListing t1 u c) c) := h2
  have hnoop := overwrite_of_unchanged t2 _ c hr1
  rw [hnoop] at h2iota
  exact ⟨_, h1, hr1, h2iota, countP_url_eq_one u _ hn2 (by rw [h2iota]; rfl)⟩

/-- C7 amended witness: the reconciled example batch persisted twice leaves
exactly one row for `https://u1`. -/
theorem upsert_second_run_noop_witness :
    (upsertAll 1 (upsertAll 0 [] (reconcile reconcileExampleItems))
      (reconcile reconcileExampleItems)).countP
        (fun o => decide (o.url = "https://u1")) = 1 := by
  obtain ⟨r1, h1, hf, h2, hcount⟩ :=
    (upsert_second_run_noop reconcileExampleItems [] 0 1 (by decide) (by decide)).2.1
      "https://u1"
      { title := some "with-img second", url := some "https://u1", images := ["p.jpg"] }
      (by decide)
  exact hcount

/-- C8: a terminal fetch failure — a non-retryable HTTP status error or the
browser fallback raising — makes `run-once` report the descriptive
`"Fetch failed: …"` log line, process zero records and leave the store
untouched; and every `run-once` invocation reports either a saved count or a
descriptive fetch failure, never anything else. -/
theorem run_fetch_failure_surfaced (responses : Nat → Response) (jitter : Nat → ℚ)
    (browser : Except String String) (parse : String → Markup)
    (store : List StoredListing) (now : Nat) (e : FetchError)
    (h : (curlGet responses jitter browser).1 = Except.error e) :
    (runOnce responses jitter browser parse store now).report =
      RunReport.fetchFailure (describeFetchError e)
    ∧ (runOnce responses jitter browser parse store now).saved = 0
    ∧ (runOnce responses jitter browser parse store now).finalStore = store
    ∧ (∀ r j b p s n, (∃ k, (runOnce r j b p s n).report = RunReport.savedCount k)
        ∨ (∃ msg, (runOnce r j b p s n).report = RunReport.fetchFailure msg)) := by
  refine ⟨by simp [runOnce, h], by simp [runOnce, h], by simp [runOnce, h], ?_⟩
  intro r j b p s n
  rcases hc : (curlGet r j b).1 with e' | html
  · exact Or.inr ⟨describeFetchError e', by simp [runOnce, hc]⟩
  · exact Or.inl ⟨(reconcile (extract_all (p html) avitoBase)).length, by simp [runOnce, hc]⟩

/-- C8 witness: a 404 response makes the run report the fetch failure and
zero processed records. -/
theorem run_fetch_failure_surfaced_witness :
    (runOnce notFoundResponses zeroJitter (Except.ok "bw")
      (fun _ => emptyMarkup) [] 0).report =
        RunReport.fetchFailure (describeFetchError (FetchError.httpStatus 404))
    ∧ (runOnce notFoundResponses zeroJitter (Except.ok "bw")
        (fun _ => emptyMarkup) [] 0).saved = 0 := by
  have h := run_fetch_failure_surfaced notFoundResponses zeroJitter (Except.ok "bw")
    (fun _ => emptyMarkup) [] 0 (FetchError.httpStatus 404) (by rfl)
  exact ⟨h.1, h.2.1⟩

end AvitoParser
